import Mathlib

/-!
WebHandlerImpl.h: a shallow embedding

Embedding of `src/src/WebHandlerImpl.h` (ESPAsyncWebServer): the windowed
printer `ChunkPrint`, the streaming JSON response `AsyncJsonResponse`, and the
two callback handlers `AsyncCallbackWebHandler` / `AsyncCallbackJsonWebHandler`.

Conventions
* `size_t` is the 32-bit unsigned type of the Espressif targets: a `Nat`
  below `SIZE_MOD`, with `++`/`--` wrapping modulo `SIZE_MOD`.
* `int` is 32-bit two's complement: an `Int` in `[-2^31, 2^31)`.
* a byte is a `Nat`; raw memory reached through a `uint8_t*` is a function
  from the offset (relative to the pointer) to the byte stored there.
-/

namespace WebHandlerImpl

/-! ## Machine integers -/

/-- Number of values of `size_t` (32-bit unsigned). -/
def SIZE_MOD : Nat := 2 ^ 32

/-- The post/pre-decrement `x--` on a `size_t`. -/
def decSize (x : Nat) : Nat := (x + (SIZE_MOD - 1)) % SIZE_MOD

/-- The increment `x++` on a `size_t`. -/
def incSize (x : Nat) : Nat := (x + 1) % SIZE_MOD

/-! ## ChunkPrint (lines 114-135) -/

/-- Fields of `class ChunkPrint`. -/
structure ChunkPrint where
  _destination : Nat → Nat
  _to_skip : Nat
  _to_write : Nat
  _pos : Nat

namespace ChunkPrint

/-- Constructor `ChunkPrint(uint8_t* destination, size_t from, size_t len)`. -/
def new (destination : Nat → Nat) (from_ len : Nat) : ChunkPrint :=
  { _destination := destination, _to_skip := from_, _to_write := len, _pos := 0 }

/-- Method `size_t write(uint8_t c)`: the new object state and the returned value. -/
def write (cp : ChunkPrint) (c : Nat) : ChunkPrint × Nat :=
  if cp._to_skip > 0 then
    ({ cp with _to_skip := decSize cp._to_skip }, 1)
  else if cp._to_write > 0 then
    ({ cp with
        _to_write := decSize cp._to_write
        _destination := fun i => if i = cp._pos then c else cp._destination i
        _pos := incSize cp._pos }, 1)
  else
    (cp, 0)

/-- Index of the store `_destination[_pos++] = c` that the next `write` call
performs, `none` when that call takes a branch without a store. -/
def storeAt (cp : ChunkPrint) : Option Nat :=
  if cp._to_skip > 0 then none
  else if cp._to_write > 0 then some cp._pos
  else none

/-- One `write` call per byte of `s`, in order (what a `Print` client does). -/
def writeAll (cp : ChunkPrint) : List Nat → ChunkPrint
  | [] => cp
  | c :: cs => writeAll (cp.write c).1 cs

/-- The indices stored to, in order, while the bytes of `s` are written. -/
def storeTrace (cp : ChunkPrint) : List Nat → List Nat
  | [] => []
  | c :: cs => cp.storeAt.toList ++ storeTrace (cp.write c).1 cs

end ChunkPrint

/-! ## The JSON library and AsyncJsonResponse (lines 137-167) -/

/-- The part of ArduinoJson the file relies on, for a document type `Doc`
(`JsonVariant`): `serialize d` is the byte sequence that `d.printTo(p)` hands to
`p`, one `write` call per byte and in order; `d.measureLength()` is the number of
those bytes; `parse` is `DynamicJsonBuffer::parse` followed by `success()`. -/
structure JsonLib (Doc : Type) where
  serialize : Doc → List Nat
  parse : List Nat → Option Doc
  createArray : Doc
  createObject : Doc

/-- Call `root.printTo(dest)` on a `ChunkPrint`. -/
def JsonLib.printTo {Doc : Type} (lib : JsonLib Doc) (root : Doc) (dest : ChunkPrint) : ChunkPrint :=
  dest.writeAll (lib.serialize root)

/-- Call `root.measureLength()`, a `size_t`. -/
def JsonLib.measureLength {Doc : Type} (lib : JsonLib Doc) (root : Doc) : Nat :=
  (lib.serialize root).length % SIZE_MOD

/-- An Arduino `String`. -/
abbrev AString := List Char

/-- The constant `JSON_MIMETYPE`. -/
def JSON_MIMETYPE : AString := "application/json".toList

/-- Fields of `class AsyncJsonResponse`, with the fields of its base class
`AsyncAbstractResponse` that the file reads or assigns. -/
structure AsyncJsonResponse (Doc : Type) where
  _root : Doc
  _isValid : Bool
  _code : Nat
  _contentType : AString
  _contentLength : Nat
  _sentLength : Nat

namespace AsyncJsonResponse

variable {Doc : Type}

/-- Modelled from the spec: the base-class constructor of `AsyncAbstractResponse`
is not in this file; it leaves the cached length `_contentLength` at zero, the
"not yet computed" sentinel. -/
def initialContentLength : Nat := 0

/-- Modelled from the spec: the base-class constructor of `AsyncAbstractResponse`
is not in this file; a new response has sent nothing, so `_sentLength` is zero. -/
def initialSentLength : Nat := 0

/-- Constructor `AsyncJsonResponse(bool isArray=false)`, run after the base-class
constructor. -/
def new (lib : JsonLib Doc) (isArray : Bool) : AsyncJsonResponse Doc :=
  { _root := if isArray then lib.createArray else lib.createObject
    _isValid := false
    _code := 200
    _contentType := JSON_MIMETYPE
    _contentLength := initialContentLength
    _sentLength := initialSentLength }

/-- Method `_sourceValid()`. -/
def _sourceValid (r : AsyncJsonResponse Doc) : Bool := r._isValid

/-- Method `setLength()`: the new state and the returned value. -/
def setLength (lib : JsonLib Doc) (r : AsyncJsonResponse Doc) : AsyncJsonResponse Doc × Nat :=
  let r1 := { r with _contentLength := lib.measureLength r._root }
  let r2 := if r1._contentLength ≠ 0 then { r1 with _isValid := true } else r1
  (r2, r2._contentLength)

/-- The `ChunkPrint` object `dest` of `_fillBuffer(data, len)` once
`_root.printTo(dest)` has returned. -/
def fillDest (lib : JsonLib Doc) (r : AsyncJsonResponse Doc) (data : Nat → Nat) (len : Nat) :
    ChunkPrint :=
  lib.printTo r._root (ChunkPrint.new data r._sentLength len)

/-- Method `_fillBuffer(uint8_t *data, size_t len)`: the memory behind `data`
afterwards and the returned value. -/
def _fillBuffer (lib : JsonLib Doc) (r : AsyncJsonResponse Doc) (data : Nat → Nat) (len : Nat) :
    (Nat → Nat) × Nat :=
  let dest := fillDest lib r data len
  (dest._destination, len)

/-- The first `len` bytes found behind a pointer. -/
def firstBytes (data : Nat → Nat) (len : Nat) : List Nat :=
  (List.range len).map data

/-- A transport pulling the body in consecutive windows: window `i` is
`_fillBuffer(buf_i, len_i)` with `_sentLength` equal to the sum of the earlier
lengths; the result is the concatenation of the first `len_i` bytes of each
buffer. -/
def pullWindows (lib : JsonLib Doc) (r : AsyncJsonResponse Doc) (offset : Nat) :
    List ((Nat → Nat) × Nat) → List Nat
  | [] => []
  | (buf, len) :: rest =>
    firstBytes (_fillBuffer lib { r with _sentLength := offset } buf len).1 len
      ++ pullWindows lib r (offset + len) rest

end AsyncJsonResponse

/-! ## Requests and effects -/

/-- The part of `AsyncWebServerRequest` the handlers use: `method()`, `url()`,
`contentType()`, the headers registered through `addInterestingHeader`, and the
public pointer `_tempObject` (`none` is `NULL`, `some b` a heap block holding
the bytes `b`). -/
structure AsyncWebServerRequest where
  method : Nat
  url : AString
  contentType : AString
  interestingHeaders : List AString
  _tempObject : Option (List Nat)
deriving DecidableEq

/-- Call `request->addInterestingHeader(name)`. -/
def AsyncWebServerRequest.addInterestingHeader (request : AsyncWebServerRequest) (name : AString) :
    AsyncWebServerRequest :=
  { request with interestingHeaders := request.interestingHeaders ++ [name] }

/-- What a handler does to the outside world: call the user function `fn`
(identified by a number) on the request and an argument, or `request->send(code)`. -/
inductive Effect (Arg : Type) where
  | callback (fn : Nat) (request : AsyncWebServerRequest) (arg : Arg)
  | send (code : Nat)
deriving DecidableEq

/-- Arduino `String::startsWith(const String&)`. -/
def startsWith (s p : AString) : Bool := p.isPrefixOf s

/-- Arduino `String::equalsIgnoreCase(const String&)`: same length and equal
characters after `tolower`. -/
def equalsIgnoreCase (s t : AString) : Bool := s.map Char.toLower == t.map Char.toLower

/-- The test `_uri.length() && (_uri != url && !url.startsWith(_uri+"/"))` that
makes both `canHandle` methods return false. -/
def uriMismatch (_uri url : AString) : Bool :=
  _uri.length ≠ 0 && (_uri ≠ url && !startsWith url (_uri ++ ['/']))

/-! ## AsyncCallbackWebHandler (lines 66-112) -/

/-- Fields of `class AsyncCallbackWebHandler`; a function field is `none` when
`NULL` and `some fn` when set to the user function `fn`. -/
structure AsyncCallbackWebHandler where
  _uri : AString
  _method : Nat
  _onRequest : Option Nat
  _onUpload : Option Nat
  _onBody : Option Nat
deriving DecidableEq

namespace AsyncCallbackWebHandler

/-- Constructor; `HTTP_ANY` is defined outside this file. -/
def new (HTTP_ANY : Nat) : AsyncCallbackWebHandler :=
  { _uri := [], _method := HTTP_ANY, _onRequest := none, _onUpload := none, _onBody := none }

/-- Method `setUri`. -/
def setUri (h : AsyncCallbackWebHandler) (uri : AString) : AsyncCallbackWebHandler :=
  { h with _uri := uri }

/-- Method `setMethod`. -/
def setMethod (h : AsyncCallbackWebHandler) (method : Nat) : AsyncCallbackWebHandler :=
  { h with _method := method }

/-- Method `onRequest`. -/
def onRequest (h : AsyncCallbackWebHandler) (fn : Option Nat) : AsyncCallbackWebHandler :=
  { h with _onRequest := fn }

/-- Method `canHandle`: the returned value and the request afterwards. -/
def canHandle (h : AsyncCallbackWebHandler) (request : AsyncWebServerRequest) :
    Bool × AsyncWebServerRequest :=
  if h._onRequest.isNone then
    (false, request)
  else if h._method &&& request.method = 0 then
    (false, request)
  else if uriMismatch h._uri request.url then
    (false, request)
  else
    (true, request.addInterestingHeader "ANY".toList)

/-- Method `handleRequest`: the effects, in order. -/
def handleRequest (h : AsyncCallbackWebHandler) (request : AsyncWebServerRequest) :
    List (Effect Unit) :=
  match h._onRequest with
  | some fn => [Effect.callback fn request ()]
  | none => [Effect.send 500]

/-- Method `isRequestHandlerTrivial`. -/
def isRequestHandlerTrivial (h : AsyncCallbackWebHandler) : Bool :=
  if h._onRequest.isSome then false else true

end AsyncCallbackWebHandler

/-! ## AsyncCallbackJsonWebHandler (lines 169-229) -/

/-- Number of values of `int` above zero: `INT_MAX + 1`. -/
def INT_HALF : Int := 2 ^ 31

/-- Conversion of a `size_t` to `int` (the assignment `_contentLength = total`). -/
def sizeToInt (n : Nat) : Int :=
  if (n % SIZE_MOD : Nat) < 2 ^ 31 then ((n % SIZE_MOD : Nat) : Int)
  else ((n % SIZE_MOD : Nat) : Int) - (SIZE_MOD : Int)

/-- Conversion of an `int` to `size_t` (what `total < _maxContentLength` does to
its right operand before comparing). -/
def intToSize (z : Int) : Nat := (z % (SIZE_MOD : Int)).toNat

/-- The heap seen by `malloc`: whether a block of `n` bytes can be had, and
the (arbitrary) bytes a fresh block holds. -/
structure Heap where
  available : Nat → Bool
  junk : Nat → Nat

/-- Call `malloc(n)`: `none` is `NULL`, otherwise the fresh block of `n` bytes. -/
def malloc (heap : Heap) (n : Nat) : Option (List Nat) :=
  if heap.available n then some ((List.range n).map heap.junk) else none

/-- Call `memcpy(block + index, data, len)` for a heap block and a source holding
`data`: the block afterwards, or `none` when the copy would leave the block or
read past the source (undefined behaviour). -/
def memcpy (block : List Nat) (index : Nat) (data : List Nat) (len : Nat) : Option (List Nat) :=
  if index + len ≤ block.length ∧ len ≤ data.length then
    some (block.take index ++ data.take len ++ block.drop (index + len))
  else
    none

/-- Fields of `class AsyncCallbackJsonWebHandler`. -/
structure AsyncCallbackJsonWebHandler where
  _uri : AString
  _method : Nat
  _onRequest : Option Nat
  _contentLength : Int
  _maxContentLength : Int
deriving DecidableEq

namespace AsyncCallbackJsonWebHandler

/-- Constructor. `methods` is `HTTP_POST|HTTP_PUT|HTTP_PATCH`, constants defined
outside this file; `_contentLength` has no initialiser, so it starts with an
arbitrary `int`, `indeterminate`. -/
def new (methods : Nat) (indeterminate : Int) (uri : AString) (onRequest : Option Nat) :
    AsyncCallbackJsonWebHandler :=
  { _uri := uri, _method := methods, _onRequest := onRequest,
    _contentLength := indeterminate, _maxContentLength := 16384 }

/-- Method `setMethod`. -/
def setMethod (h : AsyncCallbackJsonWebHandler) (method : Nat) : AsyncCallbackJsonWebHandler :=
  { h with _method := method }

/-- Method `setMaxContentLength`. -/
def setMaxContentLength (h : AsyncCallbackJsonWebHandler) (maxContentLength : Int) :
    AsyncCallbackJsonWebHandler :=
  { h with _maxContentLength := maxContentLength }

/-- Method `onRequest`. -/
def onRequest (h : AsyncCallbackJsonWebHandler) (fn : Option Nat) : AsyncCallbackJsonWebHandler :=
  { h with _onRequest := fn }

/-- Method `canHandle`: the returned value and the request afterwards. -/
def canHandle (h : AsyncCallbackJsonWebHandler) (request : AsyncWebServerRequest) :
    Bool × AsyncWebServerRequest :=
  if h._onRequest.isNone then
    (false, request)
  else if h._method &&& request.method = 0 then
    (false, request)
  else if uriMismatch h._uri request.url then
    (false, request)
  else if !equalsIgnoreCase request.contentType JSON_MIMETYPE then
    (false, request)
  else
    (true, request.addInterestingHeader "ANY".toList)

/-- Method `handleRequest`: the effects, in order. -/
def handleRequest {Doc : Type} (lib : JsonLib Doc) (h : AsyncCallbackJsonWebHandler)
    (request : AsyncWebServerRequest) : List (Effect Doc) :=
  match h._onRequest with
  | some fn =>
    let refuse : List (Effect Doc) :=
      [Effect.send (if h._contentLength > h._maxContentLength then 413 else 400)]
    match request._tempObject with
    | some block =>
      match lib.parse block with
      | some json => [Effect.callback fn request json]
      | none => refuse
    | none => refuse
  | none => [Effect.send 500]

/-- The test `total > 0 && request->_tempObject == NULL && total < _maxContentLength`
of `handleBody`, `total` being a `size_t` and `_maxContentLength` an `int`. -/
def wantsBuffer (h : AsyncCallbackJsonWebHandler) (request : AsyncWebServerRequest)
    (total : Nat) : Bool :=
  decide (total > 0) && request._tempObject.isNone && decide (total < intToSize h._maxContentLength)

/-- Method `handleBody(request, data, len, index, total)`: the handler and the
request afterwards, `none` when the `memcpy` has undefined behaviour. -/
def handleBody (heap : Heap) (h : AsyncCallbackJsonWebHandler) (request : AsyncWebServerRequest)
    (data : List Nat) (len index total : Nat) :
    Option (AsyncCallbackJsonWebHandler × AsyncWebServerRequest) :=
  if h._onRequest.isSome then
    let h1 := { h with _contentLength := sizeToInt total }
    let request1 :=
      if wantsBuffer h1 request total then { request with _tempObject := malloc heap total }
      else request
    match request1._tempObject with
    | some block =>
      (memcpy block index data len).map fun b => (h1, { request1 with _tempObject := some b })
    | none => some (h1, request1)
  else
    some (h, request)

/-- Method `isRequestHandlerTrivial`. -/
def isRequestHandlerTrivial (h : AsyncCallbackJsonWebHandler) : Bool :=
  if h._onRequest.isSome then false else true

end AsyncCallbackJsonWebHandler

/-- One `handleBody` call as the dispatcher makes it: the arguments after
`request`. -/
structure BodyCall where
  data : List Nat
  len : Nat
  index : Nat
  total : Nat
deriving DecidableEq

/-- The `handleBody` calls made for one request, in order, on one handler. -/
def AsyncCallbackJsonWebHandler.handleBodyAll (heap : Heap) (h : AsyncCallbackJsonWebHandler)
    (request : AsyncWebServerRequest) :
    List BodyCall → Option (AsyncCallbackJsonWebHandler × AsyncWebServerRequest)
  | [] => some (h, request)
  | c :: rest =>
    match h.handleBody heap request c.data c.len c.index c.total with
    | some (h1, request1) => handleBodyAll heap h1 request1 rest
    | none => none

/-- The chunk `B[index .. index + len)` of a body `B` as a `handleBody` call
with declared total `total`. -/
def chunkCall (B : List Nat) (total : Nat) (c : Nat × Nat) : BodyCall :=
  { data := (B.drop c.1).take c.2, len := c.2, index := c.1, total := total }

/-! ## Concrete inputs -/

/-- A stand-in JSON library for concrete inputs: a document is its own
serialization, and a block parses when it starts with an opening brace. -/
def bytesLib : JsonLib (List Nat) :=
  { serialize := fun d => d
    parse := fun b => if b.head? = some 123 then some b else none
    createArray := [91, 93]
    createObject := [123, 125] }

/-- A response whose document serializes to the given bytes, about to send
from `offset`. -/
def sampleResponse (bytes : List Nat) (offset : Nat) : AsyncJsonResponse (List Nat) :=
  { AsyncJsonResponse.new bytesLib false with _root := bytes, _sentLength := offset }

/-- A heap with room, whose fresh blocks hold the byte 255. -/
def roomyHeap : Heap := { available := fun _ => true, junk := fun _ => 255 }

/-- A request with the given method, url and content type, no registered
header and no body buffer. -/
def sampleRequest (method : Nat) (url contentType : String) : AsyncWebServerRequest :=
  { method := method, url := url.toList, contentType := contentType.toList,
    interestingHeaders := [], _tempObject := none }

/-! ## Runs: several calls on one object -/

/-- What client code does to an `AsyncJsonResponse` between construction and
sending: call `setLength()`, or change the document through the reference that
`getRoot()` returns. -/
inductive ResponseOp (Doc : Type) where
  | setLength
  | setRoot (d : Doc)

/-- Assignment through `getRoot()`: the document becomes `d`. -/
def AsyncJsonResponse.setRoot {Doc : Type} (r : AsyncJsonResponse Doc) (d : Doc) :
    AsyncJsonResponse Doc :=
  { r with _root := d }

/-- The response after a sequence of client operations. -/
def AsyncJsonResponse.run {Doc : Type} (lib : JsonLib Doc) (r : AsyncJsonResponse Doc) :
    List (ResponseOp Doc) → AsyncJsonResponse Doc
  | [] => r
  | ResponseOp.setLength :: rest => run lib (r.setLength lib).1 rest
  | ResponseOp.setRoot d :: rest => run lib (r.setRoot d) rest

/-- The call `_fillBuffer(data, len)` as a step on the response object: the body
assigns to no field, so the object is handed on as it is, next to the memory
behind `data` and the returned value. -/
def AsyncJsonResponse._fillBufferStep {Doc : Type} (lib : JsonLib Doc)
    (r : AsyncJsonResponse Doc) (data : Nat → Nat) (len : Nat) :
    AsyncJsonResponse Doc × (Nat → Nat) × Nat :=
  (r, r._fillBuffer lib data len)

/-- The call `canHandle(request)` of `AsyncCallbackWebHandler` as a step on the
handler object: the body assigns to no field of the handler. -/
def AsyncCallbackWebHandler.canHandleStep (h : AsyncCallbackWebHandler)
    (request : AsyncWebServerRequest) :
    AsyncCallbackWebHandler × Bool × AsyncWebServerRequest :=
  (h, h.canHandle request)

/-- The call `canHandle(request)` of `AsyncCallbackJsonWebHandler` as a step on
the handler object: the body assigns to no field of the handler. -/
def AsyncCallbackJsonWebHandler.canHandleStep (h : AsyncCallbackJsonWebHandler)
    (request : AsyncWebServerRequest) :
    AsyncCallbackJsonWebHandler × Bool × AsyncWebServerRequest :=
  (h, h.canHandle request)

/-- The `handleBody` calls made on one handler for two requests in flight, in
the order the dispatcher makes them; a call tagged `true` is for the first
request, one tagged `false` for the second. -/
def AsyncCallbackJsonWebHandler.handleBodyTwo (heap : Heap) (h : AsyncCallbackJsonWebHandler)
    (a b : AsyncWebServerRequest) :
    List (Bool × BodyCall) →
      Option (AsyncCallbackJsonWebHandler × AsyncWebServerRequest × AsyncWebServerRequest)
  | [] => some (h, a, b)
  | (true, c) :: rest =>
    match h.handleBody heap a c.data c.len c.index c.total with
    | some (h1, a1) => handleBodyTwo heap h1 a1 b rest
    | none => none
  | (false, c) :: rest =>
    match h.handleBody heap b c.data c.len c.index c.total with
    | some (h1, b1) => handleBodyTwo heap h1 a b1 rest
    | none => none

/-- The calls of an interleaved run that are for the first request. -/
def callsForFirst (run : List (Bool × BodyCall)) : List BodyCall :=
  (run.filter fun x => x.1).map Prod.snd

/-- A stand-in parser input reader: the bytes up to and including the first
closing brace. -/
def upToBrace : List Nat → List Nat
  | [] => []
  | c :: cs => if c = 125 then [c] else c :: upToBrace cs

/-- A stand-in JSON library for concrete inputs whose parser reads one object,
from its opening brace to the first closing brace, and ignores what follows. -/
def objectLib : JsonLib (List Nat) :=
  { serialize := fun d => d
    parse := fun b => if b.head? = some 123 then some (upToBrace b) else none
    createArray := [91, 93]
    createObject := [123, 125] }

/-- The handler of the spec's scenario: uri "/api", method POST (bit 2), limit
100, callback number 1. -/
def scenarioHandler : AsyncCallbackJsonWebHandler :=
  ((AsyncCallbackJsonWebHandler.new 26 0 "/api".toList (some 1)).setMethod 2).setMaxContentLength
    100

/-! ## Lemmas on ChunkPrint -/

theorem decSize_pos {x : Nat} (h0 : 0 < x) (hx : x < SIZE_MOD) : decSize x = x - 1 := by
  unfold decSize SIZE_MOD at *
  omega

theorem incSize_lt {x : Nat} (hx : x + 1 < SIZE_MOD) : incSize x = x + 1 := by
  unfold incSize SIZE_MOD at *
  omega

/-- The state reached from any in-range state by writing `s`. -/
theorem ChunkPrint.writeAll_state (s : List Nat) :
    ∀ cp : ChunkPrint, cp._to_skip < SIZE_MOD → cp._pos + cp._to_write < SIZE_MOD →
      (cp.writeAll s)._to_skip = cp._to_skip - s.length ∧
      (cp.writeAll s)._pos = cp._pos + min cp._to_write (s.length - cp._to_skip) ∧
      (cp.writeAll s)._to_write = cp._to_write - min cp._to_write (s.length - cp._to_skip) ∧
      ∀ i, (cp.writeAll s)._destination i =
        if cp._pos ≤ i ∧ i < cp._pos + min cp._to_write (s.length - cp._to_skip)
        then s.getD (cp._to_skip + (i - cp._pos)) 0 else cp._destination i := by
  induction s with
  | nil =>
    intro cp _ _
    simp only [ChunkPrint.writeAll, List.length_nil, Nat.sub_zero, Nat.zero_sub, Nat.min_zero,
      Nat.add_zero, true_and]
    intro i
    rw [if_neg (by omega)]
  | cons c t ih =>
    intro cp hs hw
    by_cases h1 : cp._to_skip > 0
    · have hstep : (cp.write c).1 = { cp with _to_skip := cp._to_skip - 1 } := by
        simp [ChunkPrint.write, h1, decSize_pos h1 hs]
      have := ih { cp with _to_skip := cp._to_skip - 1 } (by simp; omega) (by simpa using hw)
      simp only [ChunkPrint.writeAll, hstep]
      obtain ⟨a, b, c', d⟩ := this
      simp only at a b c' d
      have e : t.length - (cp._to_skip - 1) = (c :: t).length - cp._to_skip := by
        simp; omega
      rw [e] at b c' d
      refine ⟨by rw [a]; simp; omega, b, c', ?_⟩
      intro i
      rw [d i]
      split
      · next hi =>
        have : cp._to_skip + (i - cp._pos) = (cp._to_skip - 1 + (i - cp._pos)) + 1 := by omega
        rw [this]
        simp [List.getD_cons_succ]
      · rfl
    · have h0 : cp._to_skip = 0 := by omega
      by_cases h2 : cp._to_write > 0
      · have hstep : (cp.write c).1 =
            { cp with
                _to_write := cp._to_write - 1
                _destination := fun i => if i = cp._pos then c else cp._destination i
                _pos := cp._pos + 1 } := by
          simp [ChunkPrint.write, h1, h2, decSize_pos h2 (by omega), incSize_lt (by omega : cp._pos + 1 < SIZE_MOD)]
        have := ih { cp with
                _to_write := cp._to_write - 1
                _destination := fun i => if i = cp._pos then c else cp._destination i
                _pos := cp._pos + 1 } (by simpa using hs) (by simp; omega)
        simp only [ChunkPrint.writeAll, hstep]
        obtain ⟨a, b, c', d⟩ := this
        simp only at a b c' d
        simp only [h0, Nat.sub_zero, List.length_cons, Nat.zero_add] at a b c' d ⊢
        refine ⟨by omega, by omega, by omega, ?_⟩
        intro i
        rw [d i]
        by_cases hi : i = cp._pos
        · subst hi
          have : ¬ (cp._pos + 1 ≤ cp._pos ∧ cp._pos < cp._pos + 1 + min (cp._to_write - 1) t.length) := by omega
          rw [if_neg this]
          have : cp._pos ≤ cp._pos ∧ cp._pos < cp._pos + min cp._to_write (t.length + 1) := by omega
          rw [if_pos this]
          simp
        · by_cases hr : cp._pos + 1 ≤ i ∧ i < cp._pos + 1 + min (cp._to_write - 1) t.length
          · rw [if_pos hr]
            have : cp._pos ≤ i ∧ i < cp._pos + min cp._to_write (t.length + 1) := by omega
            rw [if_pos this]
            have : i - cp._pos = (i - (cp._pos + 1)) + 1 := by omega
            rw [this]
            simp [List.getD_cons_succ]
          · rw [if_neg hr]
            have : ¬ (cp._pos ≤ i ∧ i < cp._pos + min cp._to_write (t.length + 1)) := by omega
            rw [if_neg this]
            simp [hi]
      · have hw0 : cp._to_write = 0 := by omega
        have hstep : (cp.write c).1 = cp := by
          simp [ChunkPrint.write, h1, h2]
        have := ih cp hs hw
        simp only [ChunkPrint.writeAll, hstep]
        obtain ⟨a, b, c', d⟩ := this
        simp only [h0, hw0] at a b c' d ⊢
        refine ⟨by omega, by simpa using b, by simpa using c', ?_⟩
        intro i
        rw [d i]
        have hn : ¬ (cp._pos ≤ i ∧ i < cp._pos + min 0 (t.length - 0)) := by omega
        have hn2 : ¬ (cp._pos ≤ i ∧ i < cp._pos + min 0 ((c :: t).length - 0)) := by omega
        rw [if_neg hn, if_neg hn2]

/-- The stores made while `s` is written go to consecutive indices from `_pos`. -/
theorem ChunkPrint.storeTrace_eq (s : List Nat) :
    ∀ cp : ChunkPrint, cp._to_skip < SIZE_MOD → cp._pos + cp._to_write < SIZE_MOD →
      cp.storeTrace s = List.range' cp._pos (min cp._to_write (s.length - cp._to_skip)) := by
  induction s with
  | nil =>
    intro cp _ _
    simp [ChunkPrint.storeTrace]
  | cons c t ih =>
    intro cp hs hw
    by_cases h1 : cp._to_skip > 0
    · have hstep : (cp.write c).1 = { cp with _to_skip := cp._to_skip - 1 } := by
        simp [ChunkPrint.write, h1, decSize_pos h1 hs]
      have := ih { cp with _to_skip := cp._to_skip - 1 } (by simp; omega) (by simpa using hw)
      simp only [ChunkPrint.storeTrace, hstep, this, ChunkPrint.storeAt, h1, if_true,
        Option.toList, List.nil_append]
      have e : t.length - (cp._to_skip - 1) = (c :: t).length - cp._to_skip := by
        simp; omega
      rw [e]
    · have h0 : cp._to_skip = 0 := by omega
      by_cases h2 : cp._to_write > 0
      · have hstep : (cp.write c).1 =
            { cp with
                _to_write := cp._to_write - 1
                _destination := fun i => if i = cp._pos then c else cp._destination i
                _pos := cp._pos + 1 } := by
          simp [ChunkPrint.write, h1, h2, decSize_pos h2 (by omega), incSize_lt (by omega : cp._pos + 1 < SIZE_MOD)]
        have := ih { cp with
                _to_write := cp._to_write - 1
                _destination := fun i => if i = cp._pos then c else cp._destination i
                _pos := cp._pos + 1 } (by simpa using hs) (by simp; omega)
        have hsa : cp.storeAt = some cp._pos := by simp [ChunkPrint.storeAt, h1, h2]
        have e : min cp._to_write (t.length + 1) = min (cp._to_write - 1) t.length + 1 := by omega
        simp only [h0, Nat.sub_zero] at this
        simp only [ChunkPrint.storeTrace, hstep, hsa, Option.toList, h0, Nat.sub_zero,
          List.length_cons, e, List.range'_succ, List.singleton_append, this]
      · have hw0 : cp._to_write = 0 := by omega
        have hstep : (cp.write c).1 = cp := by
          simp [ChunkPrint.write, h1, h2]
        have := ih cp hs hw
        have hsa : cp.storeAt = none := by simp [ChunkPrint.storeAt, h1, h2]
        simp only [ChunkPrint.storeTrace, hstep, this, hsa, Option.toList, List.nil_append, hw0,
          Nat.zero_min]

/-- A single `write` call never increases `_to_skip` or `_to_write`. -/
theorem ChunkPrint.write_counters (cp : ChunkPrint) (c : Nat)
    (hs : cp._to_skip < SIZE_MOD) (hw : cp._to_write < SIZE_MOD) :
    (cp.write c).1._to_skip ≤ cp._to_skip ∧ (cp.write c).1._to_write ≤ cp._to_write := by
  by_cases h1 : cp._to_skip > 0
  · simp [ChunkPrint.write, h1, decSize_pos h1 hs]
  · by_cases h2 : cp._to_write > 0
    · simp [ChunkPrint.write, h1, h2, decSize_pos h2 hw]
    · simp [ChunkPrint.write, h1, h2]

/-- The bytes a window `[off, off + len)` inside `s` selects. -/
theorem map_getD_range (s : List Nat) (off len : Nat) (h : off + len ≤ s.length) :
    (List.range len).map (fun i => s.getD (off + i) 0) = (s.drop off).take len := by
  apply List.ext_getElem
  · simp; omega
  · intro i h1 h2
    simp at h1
    simp [List.getElem_take, List.getElem_drop]
    rw [List.getElem?_eq_getElem (by omega)]
    simp

/-- One window of `_fillBuffer` that lies inside the serialization. -/
theorem AsyncJsonResponse.fillBuffer_inside {Doc : Type} (lib : JsonLib Doc)
    (r : AsyncJsonResponse Doc) (data : Nat → Nat) (len : Nat)
    (hS : (lib.serialize r._root).length < SIZE_MOD)
    (h : r._sentLength + len ≤ (lib.serialize r._root).length) :
    firstBytes (_fillBuffer lib r data len).1 len
      = ((lib.serialize r._root).drop r._sentLength).take len := by
  have hst := ChunkPrint.writeAll_state (lib.serialize r._root)
    (ChunkPrint.new data r._sentLength len)
    (by simp only [ChunkPrint.new]; omega) (by simp only [ChunkPrint.new]; omega)
  obtain ⟨_, _, _, d⟩ := hst
  rw [← map_getD_range _ _ _ h]
  unfold firstBytes _fillBuffer fillDest JsonLib.printTo
  apply List.map_congr_left
  intro i hi
  simp only [List.mem_range] at hi
  simp only
  rw [d i]
  simp only [ChunkPrint.new]
  rw [if_pos (by omega), Nat.sub_zero]

/-- Consecutive windows from `offset` that stay inside the serialization. -/
theorem AsyncJsonResponse.pullWindows_eq {Doc : Type} (lib : JsonLib Doc)
    (r : AsyncJsonResponse Doc) (hS : (lib.serialize r._root).length < SIZE_MOD)
    (ws : List ((Nat → Nat) × Nat)) :
    ∀ offset, offset + (ws.map Prod.snd).sum ≤ (lib.serialize r._root).length →
      pullWindows lib r offset ws
        = ((lib.serialize r._root).drop offset).take (ws.map Prod.snd).sum := by
  induction ws with
  | nil => intro offset _; simp [pullWindows]
  | cons w rest ih =>
    intro offset h
    obtain ⟨buf, len⟩ := w
    simp only [List.map_cons, List.sum_cons] at h ⊢
    simp only [pullWindows]
    rw [ih (offset + len) (by omega)]
    have := fillBuffer_inside lib { r with _sentLength := offset } buf len hS
      (by simpa using (by omega : offset + len ≤ (lib.serialize r._root).length))
    rw [this]
    simp only
    rw [List.take_add, List.drop_drop]

/-! ## ChunkPrint: the window and its bound -/

/-- C2. After one `write` call per byte of `s` on `ChunkPrint(dest, from, len)`,
position `i` of the destination holds `s[from + i]` for every
`i < min len (|s| - from)` and its previous value everywhere else. -/
theorem chunkPrint_window (dest : Nat → Nat) (s : List Nat) (from_ len : Nat)
    (hf : from_ < SIZE_MOD) (hl : len < SIZE_MOD) (i : Nat) :
    (i < min len (s.length - from_) →
      s[from_ + i]? = some (((ChunkPrint.new dest from_ len).writeAll s)._destination i)) ∧
    (¬ i < min len (s.length - from_) →
      ((ChunkPrint.new dest from_ len).writeAll s)._destination i = dest i) := by
  have hst := ChunkPrint.writeAll_state s (ChunkPrint.new dest from_ len)
    (by simpa [ChunkPrint.new] using hf) (by simpa [ChunkPrint.new] using hl)
  obtain ⟨_, _, _, d⟩ := hst
  simp only [ChunkPrint.new] at d ⊢
  constructor
  · intro hi
    rw [d i, if_pos (by omega)]
    simp only [Nat.sub_zero, List.getD_eq_getElem?_getD]
    rw [List.getElem?_eq_getElem (by omega)]
    simp
  · intro hi
    rw [d i, if_neg (by omega)]

/-- Witness of C2: a window of three bytes starting at offset one of a six byte
stream; position 2 of the destination holds byte `s[1 + 2]`. -/
theorem chunkPrint_window_witness :
    1 < SIZE_MOD ∧ 3 < SIZE_MOD ∧ 2 < min 3 (([10, 11, 12, 13, 14, 15] : List Nat).length - 1) ∧
    ([10, 11, 12, 13, 14, 15] : List Nat)[1 + 2]?
      = some (((ChunkPrint.new (fun _ => 0) 1 3).writeAll [10, 11, 12, 13, 14, 15])._destination 2) :=
  ⟨by decide, by decide, by decide,
    (chunkPrint_window (fun _ => 0) [10, 11, 12, 13, 14, 15] 1 3 (by decide) (by decide) 2).1
      (by decide)⟩

/-- C4. For `ChunkPrint(dest, from, len)` and any sequence `cs` of `write`
calls: afterwards `_pos + _to_write = len` and `_pos ≤ len`; every store made on
the way went to an index below `len` and there were at most `len` of them; the
memory from offset `len` on is untouched; and no `write` call makes `_to_skip`
or `_to_write` wrap around. -/
theorem chunkPrint_bound (dest : Nat → Nat) (from_ len : Nat)
    (hf : from_ < SIZE_MOD) (hl : len < SIZE_MOD) (cs : List Nat) :
    ((ChunkPrint.new dest from_ len).writeAll cs)._pos
        + ((ChunkPrint.new dest from_ len).writeAll cs)._to_write = len ∧
    ((ChunkPrint.new dest from_ len).writeAll cs)._pos ≤ len ∧
    (∀ i ∈ (ChunkPrint.new dest from_ len).storeTrace cs, i < len) ∧
    ((ChunkPrint.new dest from_ len).storeTrace cs).length ≤ len ∧
    (∀ i, len ≤ i → ((ChunkPrint.new dest from_ len).writeAll cs)._destination i = dest i) ∧
    (∀ c, (((ChunkPrint.new dest from_ len).writeAll cs).write c).1._to_skip
            ≤ ((ChunkPrint.new dest from_ len).writeAll cs)._to_skip ∧
          (((ChunkPrint.new dest from_ len).writeAll cs).write c).1._to_write
            ≤ ((ChunkPrint.new dest from_ len).writeAll cs)._to_write) := by
  have hst := ChunkPrint.writeAll_state cs (ChunkPrint.new dest from_ len)
    (by simpa [ChunkPrint.new] using hf) (by simpa [ChunkPrint.new] using hl)
  have htr := ChunkPrint.storeTrace_eq cs (ChunkPrint.new dest from_ len)
    (by simpa [ChunkPrint.new] using hf) (by simpa [ChunkPrint.new] using hl)
  obtain ⟨a, b, c', d⟩ := hst
  rw [htr]
  simp only [ChunkPrint.new] at a b c' d ⊢
  refine ⟨by omega, by omega, ?_, ?_, ?_, ?_⟩
  · intro i hi
    rw [List.mem_range'_1] at hi
    omega
  · simp
  · intro i hi
    rw [d i, if_neg (by omega)]
  · intro c
    exact ChunkPrint.write_counters _ c (by omega) (by omega)

/-- Witness of C4: window `(from, len) = (1, 3)` fed six bytes. -/
theorem chunkPrint_bound_witness :
    1 < SIZE_MOD ∧ 3 < SIZE_MOD ∧
    ((ChunkPrint.new (fun _ => 0) 1 3).writeAll [10, 11, 12, 13, 14, 15])._pos
      + ((ChunkPrint.new (fun _ => 0) 1 3).writeAll [10, 11, 12, 13, 14, 15])._to_write = 3 :=
  ⟨by decide, by decide,
    (chunkPrint_bound (fun _ => 0) 1 3 (by decide) (by decide) [10, 11, 12, 13, 14, 15]).1⟩

/-! ## AsyncJsonResponse::_fillBuffer -/

/-- C1. For a document whose serialization `S` has the length `setLength()`
returns, and consecutive windows from offset 0 whose lengths add up to `|S|`,
the first `len_i` bytes of the buffers filled by `_fillBuffer(buf_i, len_i)`,
concatenated, are exactly `S`. -/
theorem fillBuffer_windows {Doc : Type} (lib : JsonLib Doc) (r : AsyncJsonResponse Doc)
    (ws : List ((Nat → Nat) × Nat))
    (hlen : (AsyncJsonResponse.setLength lib r).2 = (lib.serialize r._root).length)
    (hsum : (ws.map Prod.snd).sum = (lib.serialize r._root).length) :
    AsyncJsonResponse.pullWindows lib r 0 ws = lib.serialize r._root := by
  have hS : (lib.serialize r._root).length < SIZE_MOD := by
    have h2 : (lib.serialize r._root).length % SIZE_MOD = (lib.serialize r._root).length := by
      unfold AsyncJsonResponse.setLength JsonLib.measureLength at hlen
      simp only at hlen
      by_cases hz : (lib.serialize r._root).length % SIZE_MOD = 0
      · rw [if_neg (by simpa using hz)] at hlen
        exact hlen
      · rw [if_pos hz] at hlen
        exact hlen
    rw [← h2]
    exact Nat.mod_lt _ (by decide)
  rw [AsyncJsonResponse.pullWindows_eq lib r hS ws 0 (by omega), hsum]
  simp

/-- Witness of C1: five bytes pulled as windows of 2, 0 and 3 bytes. -/
theorem fillBuffer_windows_witness :
    (AsyncJsonResponse.setLength bytesLib (sampleResponse [10, 11, 12, 13, 14] 0)).2
        = (bytesLib.serialize (sampleResponse [10, 11, 12, 13, 14] 0)._root).length ∧
    (([(fun _ => 0, 2), (fun _ => 7, 0), (fun _ => 9, 3)] :
        List ((Nat → Nat) × Nat)).map Prod.snd).sum
        = (bytesLib.serialize (sampleResponse [10, 11, 12, 13, 14] 0)._root).length ∧
    AsyncJsonResponse.pullWindows bytesLib (sampleResponse [10, 11, 12, 13, 14] 0) 0
        [(fun _ => 0, 2), (fun _ => 7, 0), (fun _ => 9, 3)] = [10, 11, 12, 13, 14] :=
  ⟨by decide, by decide,
    fillBuffer_windows bytesLib (sampleResponse [10, 11, 12, 13, 14] 0)
      [(fun _ => 0, 2), (fun _ => 7, 0), (fun _ => 9, 3)] (by decide) (by decide)⟩

/-- C3 fails as stated: for a two byte serialization, offset 0 and a request
of five bytes, `_fillBuffer` stores two bytes and returns 5, not `min 5 (2 - 0)`. -/
theorem fillBuffer_return_counterexample :
    (AsyncJsonResponse._fillBuffer bytesLib (sampleResponse [123, 125] 0) (fun _ => 0) 5).2 = 5 ∧
    ((ChunkPrint.new (fun _ => 0) 0 5).storeTrace
        (bytesLib.serialize (sampleResponse [123, 125] 0)._root)).length = 2 ∧
    (AsyncJsonResponse._fillBuffer bytesLib (sampleResponse [123, 125] 0) (fun _ => 0) 5).2
      ≠ min 5 ((bytesLib.serialize (sampleResponse [123, 125] 0)._root).length
                - (sampleResponse [123, 125] 0)._sentLength) := by
  decide

/-- C3 as amended. `_fillBuffer(data, len)` returns `len` whatever the document
and the offset; the number of bytes it stores is `min len (|S| - offset)`; so
the returned value is the number of bytes stored exactly when
`len ≤ |S| - offset`. -/
theorem fillBuffer_return {Doc : Type} (lib : JsonLib Doc) (r : AsyncJsonResponse Doc)
    (data : Nat → Nat) (len : Nat) (ho : r._sentLength < SIZE_MOD) (hl : len < SIZE_MOD) :
    (AsyncJsonResponse._fillBuffer lib r data len).2 = len ∧
    ((ChunkPrint.new data r._sentLength len).storeTrace (lib.serialize r._root)).length
      = min len ((lib.serialize r._root).length - r._sentLength) ∧
    (AsyncJsonResponse.fillDest lib r data len)._pos
      = min len ((lib.serialize r._root).length - r._sentLength) ∧
    ((AsyncJsonResponse._fillBuffer lib r data len).2
        = ((ChunkPrint.new data r._sentLength len).storeTrace (lib.serialize r._root)).length
      ↔ len ≤ (lib.serialize r._root).length - r._sentLength) := by
  have hst := ChunkPrint.writeAll_state (lib.serialize r._root)
    (ChunkPrint.new data r._sentLength len)
    (by simpa [ChunkPrint.new] using ho) (by simpa [ChunkPrint.new] using hl)
  have htr := ChunkPrint.storeTrace_eq (lib.serialize r._root)
    (ChunkPrint.new data r._sentLength len)
    (by simpa [ChunkPrint.new] using ho) (by simpa [ChunkPrint.new] using hl)
  obtain ⟨_, b, _, _⟩ := hst
  rw [htr]
  simp only [AsyncJsonResponse._fillBuffer, AsyncJsonResponse.fillDest, JsonLib.printTo, b]
  simp only [ChunkPrint.new, List.length_range', Nat.zero_add]
  refine ⟨trivial, trivial, trivial, ?_⟩
  omega

/-- Witness of C3 as amended: two bytes to serialize, five requested. -/
theorem fillBuffer_return_witness :
    (sampleResponse [123, 125] 0)._sentLength < SIZE_MOD ∧ 5 < SIZE_MOD ∧
    (AsyncJsonResponse._fillBuffer bytesLib (sampleResponse [123, 125] 0) (fun _ => 0) 5).2 = 5 :=
  ⟨by decide, by decide,
    (fillBuffer_return bytesLib (sampleResponse [123, 125] 0) (fun _ => 0) 5
      (by decide) (by decide)).1⟩

/-! ## canHandle -/

/-- The rule behind `uriMismatch`: no mismatch exactly when the configured uri is
empty, or equals the url, or the url starts with the uri followed by a slash. -/
theorem uriMismatch_false (_uri url : AString) :
    uriMismatch _uri url = false ↔
      (_uri = [] ∨ url = _uri ∨ startsWith url (_uri ++ ['/']) = true) := by
  unfold uriMismatch
  cases _uri with
  | nil => simp
  | cons a t =>
    by_cases h1 : a :: t = url
    · simp [h1]
    · have h2 : ¬ url = a :: t := fun e => h1 e.symm
      cases hs : startsWith url (a :: t ++ ['/']) <;> simp [h1, h2, hs]

/-- C6 fails as stated: a handler without a request callback rejects a request
although its method mask meets the request method and its uri is empty. -/
theorem callbackHandler_canHandle_counterexample :
    ((AsyncCallbackWebHandler.new 127).canHandle (sampleRequest 1 "/any" "")).1 = false ∧
    ((AsyncCallbackWebHandler.new 127)._method &&& (sampleRequest 1 "/any" "").method ≠ 0 ∧
      (AsyncCallbackWebHandler.new 127)._uri = []) ∧
    ¬ (((AsyncCallbackWebHandler.new 127).canHandle (sampleRequest 1 "/any" "")).1 = true ↔
        ((AsyncCallbackWebHandler.new 127)._method &&& (sampleRequest 1 "/any" "").method ≠ 0 ∧
          ((AsyncCallbackWebHandler.new 127)._uri = [] ∨
            (sampleRequest 1 "/any" "").url = (AsyncCallbackWebHandler.new 127)._uri ∨
            startsWith (sampleRequest 1 "/any" "").url
              ((AsyncCallbackWebHandler.new 127)._uri ++ ['/']) = true))) := by
  decide

/-- C6 as amended. `AsyncCallbackWebHandler::canHandle` returns true if and only
if a request callback is configured, the method mask meets the request method,
and the uri is empty, or equals the url, or the url starts with uri + "/". So
for a handler with a callback whose mask meets the request method (as a mask with
every method bit does) it is true iff the path rule holds, and if the uri is
empty as well it is true. -/
theorem callbackHandler_canHandle (h : AsyncCallbackWebHandler) (request : AsyncWebServerRequest) :
    ((h.canHandle request).1 = true ↔
      (h._onRequest.isSome = true ∧ h._method &&& request.method ≠ 0 ∧
        (h._uri = [] ∨ request.url = h._uri ∨ startsWith request.url (h._uri ++ ['/']) = true))) ∧
    (h._onRequest.isSome = true ∧ h._method &&& request.method ≠ 0 →
      ((h.canHandle request).1 = true ↔
        (h._uri = [] ∨ request.url = h._uri ∨ startsWith request.url (h._uri ++ ['/']) = true))) ∧
    (h._onRequest.isSome = true ∧ h._method &&& request.method ≠ 0 ∧ h._uri = [] →
      (h.canHandle request).1 = true) := by
  have key : (h.canHandle request).1 = true ↔
      (h._onRequest.isSome = true ∧ h._method &&& request.method ≠ 0 ∧
        (h._uri = [] ∨ request.url = h._uri ∨
          startsWith request.url (h._uri ++ ['/']) = true)) := by
    rw [← uriMismatch_false]
    unfold AsyncCallbackWebHandler.canHandle
    cases hc : h._onRequest with
    | none => simp
    | some fn =>
      by_cases hm : h._method &&& request.method = 0
      · simp [hm]
      · cases hu : uriMismatch h._uri request.url <;> simp [hm]
  refine ⟨key, ?_, ?_⟩
  · intro hh
    rw [key]
    constructor
    · exact fun x => x.2.2
    · exact fun x => ⟨hh.1, hh.2, x⟩
  · intro hh
    rw [key]
    exact ⟨hh.1, hh.2.1, Or.inl hh.2.2⟩

/-- C5 fails as stated: a JSON handler without a request callback rejects a
JSON request although mask, path and content type all match. -/
theorem jsonHandler_canHandle_counterexample :
    ((AsyncCallbackJsonWebHandler.new 26 0 "/api".toList none).canHandle
        (sampleRequest 2 "/api" "application/json")).1 = false ∧
    ¬ (((AsyncCallbackJsonWebHandler.new 26 0 "/api".toList none).canHandle
          (sampleRequest 2 "/api" "application/json")).1 = true ↔
        ((AsyncCallbackJsonWebHandler.new 26 0 "/api".toList none)._method
            &&& (sampleRequest 2 "/api" "application/json").method ≠ 0 ∧
          ((AsyncCallbackJsonWebHandler.new 26 0 "/api".toList none)._uri = [] ∨
            (sampleRequest 2 "/api" "application/json").url
              = (AsyncCallbackJsonWebHandler.new 26 0 "/api".toList none)._uri ∨
            startsWith (sampleRequest 2 "/api" "application/json").url
              ((AsyncCallbackJsonWebHandler.new 26 0 "/api".toList none)._uri ++ ['/']) = true) ∧
          equalsIgnoreCase (sampleRequest 2 "/api" "application/json").contentType
            JSON_MIMETYPE = true)) := by
  decide

/-- C5 as amended. `AsyncCallbackJsonWebHandler::canHandle` returns true if and
only if a request callback is configured, the method mask meets the request
method, the uri is empty or equals the url or the url starts with uri + "/",
and the content type equals "application/json" ignoring case. -/
theorem jsonHandler_canHandle (h : AsyncCallbackJsonWebHandler)
    (request : AsyncWebServerRequest) :
    (h.canHandle request).1 = true ↔
      (h._onRequest.isSome = true ∧ h._method &&& request.method ≠ 0 ∧
        (h._uri = [] ∨ request.url = h._uri ∨ startsWith request.url (h._uri ++ ['/']) = true) ∧
        equalsIgnoreCase request.contentType JSON_MIMETYPE = true) := by
  rw [← uriMismatch_false]
  unfold AsyncCallbackJsonWebHandler.canHandle
  cases hc : h._onRequest with
  | none => simp
  | some fn =>
    by_cases hm : h._method &&& request.method = 0
    · simp [hm]
    · cases hu : uriMismatch h._uri request.url
      · cases he : equalsIgnoreCase request.contentType JSON_MIMETYPE <;> simp [hm]
      · simp [hm]

/-! ## handleBody: allocation and positional copies -/

/-- A non-negative `int` converts to `size_t` unchanged. -/
theorem intToSize_nonneg {z : Int} (h0 : 0 ≤ z) (h1 : z < INT_HALF) :
    ((intToSize z : Nat) : Int) = z := by
  unfold intToSize SIZE_MOD
  unfold INT_HALF at h1
  rw [Int.toNat_of_nonneg (Int.emod_nonneg _ (by norm_num))]
  exact Int.emod_eq_of_lt h0 (by norm_num at h1 ⊢; omega)

/-- A `size_t` below `2^31` converts to `int` unchanged. -/
theorem sizeToInt_small {n : Nat} (h : n < 2 ^ 31) : sizeToInt n = (n : Int) := by
  unfold sizeToInt SIZE_MOD
  have e : n % 2 ^ 32 = n := Nat.mod_eq_of_lt (by omega)
  rw [e, if_pos h]

/-- For a non-negative limit the test of `handleBody` is the integer comparison. -/
theorem AsyncCallbackJsonWebHandler.wantsBuffer_iff (h : AsyncCallbackJsonWebHandler)
    (request : AsyncWebServerRequest) (total : Nat)
    (h0 : 0 ≤ h._maxContentLength) (h1 : h._maxContentLength < INT_HALF) :
    h.wantsBuffer request total = true ↔
      (request._tempObject = none ∧ 0 < total ∧ (total : Int) < h._maxContentLength) := by
  have e := intToSize_nonneg h0 h1
  unfold wantsBuffer
  simp only [Bool.and_eq_true, decide_eq_true_eq, Option.isNone_iff_eq_none, gt_iff_lt]
  constructor
  · rintro ⟨⟨a, b⟩, c⟩
    exact ⟨b, a, by omega⟩
  · rintro ⟨a, b, c⟩
    exact ⟨⟨b, a⟩, by omega⟩

/-- The bytes of a block after an in-bounds `memcpy`. -/
theorem patch_getElem? (b d : List Nat) (i l p : Nat) (h : i + l ≤ b.length)
    (hd : d.length = l) :
    (b.take i ++ d ++ b.drop (i + l))[p]? = if i ≤ p ∧ p < i + l then d[p - i]? else b[p]? := by
  have hti : (b.take i).length = i := by simp; omega
  by_cases h1 : p < i
  · rw [if_neg (by omega), List.append_assoc, List.getElem?_append_left (by omega)]
    rw [List.getElem?_take_of_lt h1]
  · by_cases h2 : p < i + l
    · rw [if_pos (by omega), List.append_assoc, List.getElem?_append_right (by omega),
        List.getElem?_append_left (by omega), hti]
    · rw [if_neg (by omega), List.getElem?_append_right (by simp; omega)]
      simp only [List.length_append, hti, hd, List.getElem?_drop]
      congr 1
      omega

/-- A `handleBody` call on a request that has a buffer, with the copy inside
the block: `total` is recorded and the bytes are copied at `index`. -/
theorem AsyncCallbackJsonWebHandler.handleBody_buffer (heap : Heap)
    (h : AsyncCallbackJsonWebHandler) (request : AsyncWebServerRequest) (b data : List Nat)
    (len index total : Nat) (hcb : h._onRequest.isSome = true)
    (hb : request._tempObject = some b) (hin : index + len ≤ b.length)
    (hd : len ≤ data.length) :
    h.handleBody heap request data len index total
      = some ({ h with _contentLength := sizeToInt total },
              { request with
                  _tempObject := some (b.take index ++ data.take len ++ b.drop (index + len)) }) := by
  unfold handleBody
  simp [hcb, wantsBuffer, hb, memcpy, hin, hd]

/-- A `handleBody` call that allocates behaves as the same call on the request
already holding the fresh block. -/
theorem AsyncCallbackJsonWebHandler.handleBody_alloc (heap : Heap)
    (h : AsyncCallbackJsonWebHandler) (request : AsyncWebServerRequest) (data : List Nat)
    (len index total : Nat) (hcb : h._onRequest.isSome = true)
    (hw : h.wantsBuffer request total = true) (hroom : heap.available total = true) :
    h.handleBody heap request data len index total
      = h.handleBody heap { request with _tempObject := some ((List.range total).map heap.junk) }
          data len index total := by
  have hw1 : wantsBuffer { h with _contentLength := sizeToInt total } request total = true := hw
  unfold handleBody
  simp only [hcb, if_true, hw1, malloc, hroom]
  simp [wantsBuffer]

/-- A `handleBody` call on a request without buffer for which the allocation
test fails: `total` is recorded and the request is left as it is. -/
theorem AsyncCallbackJsonWebHandler.handleBody_skip (heap : Heap)
    (h : AsyncCallbackJsonWebHandler) (request : AsyncWebServerRequest) (data : List Nat)
    (len index total : Nat) (hcb : h._onRequest.isSome = true)
    (hb : request._tempObject = none) (hw : h.wantsBuffer request total = false) :
    h.handleBody heap request data len index total
      = some ({ h with _contentLength := sizeToInt total }, request) := by
  have hw1 : wantsBuffer { h with _contentLength := sizeToInt total } request total = false := hw
  unfold handleBody
  simp [hcb, hw1, hb]

/-- C7, the failing input: with `setMaxContentLength(-1)` the comparison
`total < _maxContentLength` is made in `size_t`, where -1 is 4294967295, so a
body declared with total 5 gets a block of 5 bytes although `5 < -1` is false
as integers. -/
theorem handleBody_negative_max :
    (((AsyncCallbackJsonWebHandler.new 26 0 "/api".toList (some 1)).setMaxContentLength
        (-1)).handleBody roomyHeap (sampleRequest 2 "/api" "application/json")
          [123, 125] 2 0 5).map (fun s => s.2._tempObject)
      = some (some [123, 125, 255, 255, 255]) ∧
    (sampleRequest 2 "/api" "application/json")._tempObject = none ∧
    ¬ ((0 : Int) < 5 ∧ (5 : Int) <
        ((AsyncCallbackJsonWebHandler.new 26 0 "/api".toList (some 1)).setMaxContentLength
          (-1))._maxContentLength) := by
  decide

/-- The allocation rule of `handleBody` for a non-negative limit: a request
gets a buffer in the call exactly when it had none and `0 < total < max`; the
block has `total` bytes; and a request that has a buffer keeps a buffer of the
same size. -/
theorem AsyncCallbackJsonWebHandler.handleBody_allocation (heap : Heap)
    (h : AsyncCallbackJsonWebHandler) (request : AsyncWebServerRequest) (data : List Nat)
    (len index total : Nat) (hcb : h._onRequest.isSome = true)
    (h0 : 0 ≤ h._maxContentLength) (h1 : h._maxContentLength < INT_HALF)
    (hroom : heap.available total = true) (hin : index + len ≤ total) (hd : len ≤ data.length) :
    (request._tempObject = none →
      ((∃ h2 r2 b, h.handleBody heap request data len index total = some (h2, r2) ∧
          r2._tempObject = some b ∧ b.length = total)
        ↔ (0 < total ∧ (total : Int) < h._maxContentLength)) ∧
      (¬ (0 < total ∧ (total : Int) < h._maxContentLength) →
        ∃ h2, h.handleBody heap request data len index total = some (h2, request))) ∧
    (∀ b, request._tempObject = some b → index + len ≤ b.length →
      ∃ h2 r2 b2, h.handleBody heap request data len index total = some (h2, r2) ∧
        r2._tempObject = some b2 ∧ b2.length = b.length) := by
  constructor
  · intro hb
    have hw := wantsBuffer_iff h request total h0 h1
    by_cases hc : 0 < total ∧ (total : Int) < h._maxContentLength
    · have hw' : h.wantsBuffer request total = true := hw.mpr ⟨hb, hc.1, hc.2⟩
      refine ⟨⟨fun _ => hc, fun _ => ?_⟩, fun hn => absurd hc hn⟩
      rw [handleBody_alloc heap h request data len index total hcb hw' hroom,
        handleBody_buffer heap h _ ((List.range total).map heap.junk) data len index total hcb
          rfl (by simpa using hin) hd]
      refine ⟨_, _, _, rfl, rfl, ?_⟩
      simp
      omega
    · have hw' : h.wantsBuffer request total = false := by
        cases hx : h.wantsBuffer request total
        · rfl
        · exact absurd (hw.mp hx).2 hc
      rw [handleBody_skip heap h request data len index total hcb hb hw']
      refine ⟨⟨?_, fun hn => absurd hn hc⟩, fun _ => ⟨_, rfl⟩⟩
      rintro ⟨h2, r2, b, e, hb2, _⟩
      simp only [Option.some.injEq, Prod.mk.injEq] at e
      rw [← e.2, hb] at hb2
      exact absurd hb2 (by simp)
  · intro b hb hin2
    rw [handleBody_buffer heap h request b data len index total hcb hb hin2 hd]
    refine ⟨_, _, _, rfl, rfl, ?_⟩
    simp
    omega

/-- Chunks of a body `B` delivered to a request that has a buffer of `|B|`
bytes: every position that already agreed with `B`, or is covered by a delivered
chunk, agrees with `B` afterwards. -/
theorem AsyncCallbackJsonWebHandler.handleBodyAll_chunks (heap : Heap) (B : List Nat)
    (total : Nat) (ds : List (Nat × Nat)) :
    ∀ (h : AsyncCallbackJsonWebHandler) (request : AsyncWebServerRequest) (b : List Nat),
      h._onRequest.isSome = true → request._tempObject = some b → b.length = B.length →
      (∀ c ∈ ds, c.1 + c.2 ≤ B.length) →
      ∃ h2 b2, h.handleBodyAll heap request (ds.map (chunkCall B total))
            = some (h2, { request with _tempObject := some b2 }) ∧
          b2.length = B.length ∧
          ∀ p, (b[p]? = B[p]? ∨ ∃ c ∈ ds, c.1 ≤ p ∧ p < c.1 + c.2) → b2[p]? = B[p]? := by
  induction ds with
  | nil =>
    intro h request b _ hb hlen _
    refine ⟨h, b, ?_, hlen, ?_⟩
    · simp only [List.map_nil, handleBodyAll]
      rw [← hb]
    · intro p hp
      rcases hp with hp | ⟨c, hc, _⟩
      · exact hp
      · simp at hc
  | cons c rest ih =>
    intro h request b hcb hb hlen hin
    have hc : c.1 + c.2 ≤ B.length := hin c (List.mem_cons_self _ _)
    have hdl : ((B.drop c.1).take c.2).length = c.2 := by
      simp
      omega
    have hstep := handleBody_buffer heap h request b ((B.drop c.1).take c.2) c.2 c.1 total hcb hb
      (by omega) (by omega)
    rw [List.take_of_length_le (le_of_eq hdl)] at hstep
    have hlen1 : (b.take c.1 ++ (B.drop c.1).take c.2 ++ b.drop (c.1 + c.2)).length
        = B.length := by
      simp
      omega
    obtain ⟨h2, b2, e, hl2, hag⟩ := ih { h with _contentLength := sizeToInt total }
      { request with
          _tempObject := some (b.take c.1 ++ (B.drop c.1).take c.2 ++ b.drop (c.1 + c.2)) }
      _ hcb rfl hlen1 (fun x hx => hin x (List.mem_cons_of_mem _ hx))
    refine ⟨h2, b2, ?_, hl2, ?_⟩
    · simp only [List.map_cons, handleBodyAll, chunkCall, hstep]
      exact e
    · intro p hp
      apply hag
      have hpatch := patch_getElem? b ((B.drop c.1).take c.2) c.1 c.2 p (by omega) hdl
      by_cases hcov : c.1 ≤ p ∧ p < c.1 + c.2
      · left
        rw [hpatch, if_pos hcov, List.getElem?_take_of_lt (by omega), List.getElem?_drop]
        congr 1
        omega
      · rcases hp with hp | ⟨x, hx, hxp⟩
        · left
          rw [hpatch, if_neg hcov]
          exact hp
        · rcases List.mem_cons.mp hx with hx | hx
          · subst hx
            exact absurd hxp hcov
          · right
            exact ⟨x, hx, hxp⟩

/-- C8. A body `B` with `0 < |B| = total < maxAllowedLength`, split into chunks
`(index, len)` that lie inside `B` and cover `[0, total)`, each delivered as
`handleBody(request, B[index .. index+len), len, index, total)` in any order and
any number of times (every chunk at least once) to a request without buffer,
on a heap with room for `total` bytes: every call is well defined and the
request buffer ends up equal to `B`. -/
theorem handleBody_order_independent (heap : Heap) (h : AsyncCallbackJsonWebHandler)
    (request : AsyncWebServerRequest) (B : List Nat) (chunks ds : List (Nat × Nat))
    (hcb : h._onRequest.isSome = true) (hreq : request._tempObject = none)
    (hB : 0 < B.length) (hmax : (B.length : Int) < h._maxContentLength)
    (hint : h._maxContentLength < INT_HALF) (hroom : heap.available B.length = true)
    (hin : ∀ c ∈ chunks, c.1 + c.2 ≤ B.length)
    (hcover : ∀ p, p < B.length → ∃ c ∈ chunks, c.1 ≤ p ∧ p < c.1 + c.2)
    (hsub : ∀ c ∈ ds, c ∈ chunks) (hall : ∀ c ∈ chunks, c ∈ ds) :
    ∃ h2, h.handleBodyAll heap request (ds.map (chunkCall B B.length))
        = some (h2, { request with _tempObject := some B }) := by
  have hds : ∀ c, c ∈ ds ↔ c ∈ chunks := fun c => ⟨hsub c, hall c⟩
  clear hsub hall
  have hw : h.wantsBuffer request B.length = true :=
    (AsyncCallbackJsonWebHandler.wantsBuffer_iff h request B.length (by omega) hint).mpr
      ⟨hreq, hB, hmax⟩
  cases ds with
  | nil =>
    obtain ⟨c, hc, _⟩ := hcover 0 hB
    exact absurd ((hds c).mpr hc) (by simp)
  | cons c rest =>
    have hall : ∀ x ∈ c :: rest, x.1 + x.2 ≤ B.length := fun x hx => hin x ((hds x).mp hx)
    obtain ⟨h2, b2, e, hl2, hag⟩ :=
      AsyncCallbackJsonWebHandler.handleBodyAll_chunks heap B B.length (c :: rest) h
        { request with _tempObject := some ((List.range B.length).map heap.junk) }
        ((List.range B.length).map heap.junk) hcb rfl (by simp) hall
    have hb2 : b2 = B := by
      apply List.ext_getElem?
      intro p
      by_cases hp : p < B.length
      · obtain ⟨x, hx, hxp⟩ := hcover p hp
        exact hag p (Or.inr ⟨x, (hds x).mpr hx, hxp⟩)
      · rw [List.getElem?_eq_none (by omega), List.getElem?_eq_none (by omega)]
    refine ⟨h2, ?_⟩
    rw [hb2] at e
    simp only [List.map_cons, AsyncCallbackJsonWebHandler.handleBodyAll, chunkCall] at e ⊢
    rw [AsyncCallbackJsonWebHandler.handleBody_alloc heap h request _ _ _ _ hcb hw hroom]
    exact e

/-- Witness of C8: the body `{"a":1}` split as `[0,4)` and `[4,7)`, delivered
second chunk first and then once more after the first. -/
theorem handleBody_order_independent_witness :
    ∃ h2, (AsyncCallbackJsonWebHandler.new 26 0 "/api".toList (some 1)).handleBodyAll roomyHeap
        (sampleRequest 2 "/api" "application/json")
        ([(4, 3), (0, 4), (4, 3)].map (chunkCall [123, 34, 97, 34, 58, 49, 125] 7))
      = some (h2, { sampleRequest 2 "/api" "application/json" with
                      _tempObject := some [123, 34, 97, 34, 58, 49, 125] }) :=
  handleBody_order_independent roomyHeap
    (AsyncCallbackJsonWebHandler.new 26 0 "/api".toList (some 1))
    (sampleRequest 2 "/api" "application/json") [123, 34, 97, 34, 58, 49, 125]
    [(0, 4), (4, 3)] [(4, 3), (0, 4), (4, 3)]
    (by decide) (by decide) (by decide) (by decide) (by decide) (by decide) (by decide)
    (by decide) (by decide) (by decide)

/-! ## handleRequest: the status decision -/

/-- C9. `AsyncCallbackJsonWebHandler::handleRequest` sends 500 when no callback
is configured; otherwise, when the request has a buffer that parses to a
document `d`, it invokes the callback with `(request, d)` and sends nothing;
otherwise (no buffer, or a buffer that does not parse) it sends 413 when the
recorded total `_contentLength` is greater than `_maxContentLength` and 400 when
it is not. -/
theorem jsonHandler_handleRequest {Doc : Type} (lib : JsonLib Doc)
    (h : AsyncCallbackJsonWebHandler) (request : AsyncWebServerRequest) :
    (h._onRequest = none → h.handleRequest lib request = [Effect.send 500]) ∧
    (∀ fn block d, h._onRequest = some fn → request._tempObject = some block →
      lib.parse block = some d →
      h.handleRequest lib request = [Effect.callback fn request d]) ∧
    (∀ fn, h._onRequest = some fn →
      (request._tempObject = none ∨
        ∃ block, request._tempObject = some block ∧ lib.parse block = none) →
      (h._contentLength > h._maxContentLength →
        h.handleRequest lib request = [Effect.send 413]) ∧
      (¬ h._contentLength > h._maxContentLength →
        h.handleRequest lib request = [Effect.send 400])) := by
  refine ⟨?_, ?_, ?_⟩
  · intro hn
    simp [AsyncCallbackJsonWebHandler.handleRequest, hn]
  · intro fn block d hf hb hp
    simp [AsyncCallbackJsonWebHandler.handleRequest, hf, hb, hp]
  · intro fn hf hno
    rcases hno with hb | ⟨block, hb, hp⟩
    · constructor <;> intro hc <;>
        simp [AsyncCallbackJsonWebHandler.handleRequest, hf, hb, hc]
    · constructor <;> intro hc <;>
        simp [AsyncCallbackJsonWebHandler.handleRequest, hf, hb, hp, hc]

/-! ## Body-size boundaries -/

/-- One or more `handleBody` calls carrying the same `total`, for a request
without buffer and a `total` that fails the allocation test: the handler
records `total` and the request stays as it is. -/
theorem AsyncCallbackJsonWebHandler.handleBodyAll_no_buffer (heap : Heap)
    (request : AsyncWebServerRequest) (total : Nat) (cs : List BodyCall) :
    ∀ h : AsyncCallbackJsonWebHandler, h._onRequest.isSome = true →
      request._tempObject = none → h.wantsBuffer request total = false →
      (∀ c ∈ cs, c.total = total) → cs ≠ [] →
      h.handleBodyAll heap request cs
        = some ({ h with _contentLength := sizeToInt total }, request) := by
  induction cs with
  | nil => intro h _ _ _ _ hne; exact absurd rfl hne
  | cons c rest ih =>
    intro h hcb hb hw hall _
    have hc : c.total = total := hall c (List.mem_cons_self _ _)
    have hstep := handleBody_skip heap h request c.data c.len c.index total hcb hb hw
    simp only [handleBodyAll, hc, hstep]
    cases rest with
    | nil => rfl
    | cons c2 rest2 =>
      exact ih { h with _contentLength := sizeToInt total } hcb hb hw
        (fun x hx => hall x (List.mem_cons_of_mem _ hx)) (by simp)

/-- C10 fails as stated, at three inputs. With `setMaxContentLength(-1)` a body
declared with total 0 is answered 413, not 400. With the largest limit
`2147483647` a body declared with total `2147483648` is answered 400, not 413.
And a request for which `handleBody` was never called is answered 413 when the
handler last recorded a total above the limit for another request. -/
theorem jsonHandler_size_boundaries_counterexample :
    ((((AsyncCallbackJsonWebHandler.new 26 0 "/api".toList (some 1)).setMaxContentLength
        (-1)).handleBody roomyHeap (sampleRequest 2 "/api" "application/json") [] 0 0 0).map
        (fun s => s.1.handleRequest bytesLib s.2)) = some [Effect.send 413] ∧
    ((((AsyncCallbackJsonWebHandler.new 26 0 "/api".toList (some 1)).setMaxContentLength
        2147483647).handleBody roomyHeap (sampleRequest 2 "/api" "application/json")
          [] 0 0 2147483648).map
        (fun s => s.1.handleRequest bytesLib s.2)) = some [Effect.send 400] ∧
    (((AsyncCallbackJsonWebHandler.new 26 0 "/api".toList (some 1)).handleBody roomyHeap
        (sampleRequest 2 "/api/a" "application/json") [] 0 0 16385).map
        (fun s => s.1.handleRequest bytesLib (sampleRequest 2 "/api/b" "application/json")))
      = some [Effect.send 413] := by
  decide

/-- C10 as amended. For a configured callback and a limit `max` with
`0 ≤ max < 2147483647`, and a request without buffer that receives one or more
`handleBody` calls: if they all declare `total = max + 1`, the `handleRequest`
that follows sends 413; if they all declare `total = 0`, it sends 400. -/
theorem jsonHandler_size_boundaries {Doc : Type} (lib : JsonLib Doc) (heap : Heap)
    (h : AsyncCallbackJsonWebHandler) (request : AsyncWebServerRequest) (cs : List BodyCall)
    (hcb : h._onRequest.isSome = true) (hb : request._tempObject = none) (hne : cs ≠ [])
    (h0 : 0 ≤ h._maxContentLength) (h1 : h._maxContentLength + 1 < INT_HALF) :
    ((∀ c ∈ cs, (c.total : Int) = h._maxContentLength + 1) →
      ∃ h2 r2, h.handleBodyAll heap request cs = some (h2, r2) ∧
        h2.handleRequest lib r2 = [Effect.send 413]) ∧
    ((∀ c ∈ cs, c.total = 0) →
      ∃ h2 r2, h.handleBodyAll heap request cs = some (h2, r2) ∧
        h2.handleRequest lib r2 = [Effect.send 400]) := by
  have hlt : h._maxContentLength < INT_HALF := by omega
  have hwi := fun total =>
    AsyncCallbackJsonWebHandler.wantsBuffer_iff h request total h0 hlt
  obtain ⟨fn, hfn⟩ := Option.isSome_iff_exists.mp hcb
  constructor
  · intro hall
    have hT : ∀ c ∈ cs, c.total = (h._maxContentLength + 1).toNat := by
      intro c hc
      have := hall c hc
      omega
    have hw : h.wantsBuffer request (h._maxContentLength + 1).toNat = false := by
      cases hx : h.wantsBuffer request (h._maxContentLength + 1).toNat
      · rfl
      · have := ((hwi _).mp hx).2.2
        omega
    refine ⟨_, _, AsyncCallbackJsonWebHandler.handleBodyAll_no_buffer heap request _ cs h hcb hb
      hw hT hne, ?_⟩
    have hsz : sizeToInt (h._maxContentLength + 1).toNat = h._maxContentLength + 1 := by
      rw [sizeToInt_small (by unfold INT_HALF at h1; omega)]
      omega
    simp [AsyncCallbackJsonWebHandler.handleRequest, hfn, hb, hsz]
  · intro hall
    have hw : h.wantsBuffer request 0 = false := by
      cases hx : h.wantsBuffer request 0
      · rfl
      · have := ((hwi _).mp hx).2.1
        omega
    refine ⟨_, _, AsyncCallbackJsonWebHandler.handleBodyAll_no_buffer heap request _ cs h hcb hb
      hw hall hne, ?_⟩
    have hsz : sizeToInt 0 = 0 := by
      rw [sizeToInt_small (by norm_num)]
      rfl
    simp only [AsyncCallbackJsonWebHandler.handleRequest, hfn, hb, hsz]
    rw [if_neg (by omega)]

/-- Witness of C10 as amended: the default limit 16384 and one `handleBody` call
declaring 16385 bytes. -/
theorem jsonHandler_size_boundaries_witness :
    ∃ h2 r2, (AsyncCallbackJsonWebHandler.new 26 0 "/api".toList (some 1)).handleBodyAll roomyHeap
        (sampleRequest 2 "/api" "application/json")
        [{ data := [123], len := 1, index := 0, total := 16385 }] = some (h2, r2) ∧
      h2.handleRequest bytesLib r2 = [Effect.send 413] :=
  (jsonHandler_size_boundaries bytesLib roomyHeap
    (AsyncCallbackJsonWebHandler.new 26 0 "/api".toList (some 1))
    (sampleRequest 2 "/api" "application/json")
    [{ data := [123], len := 1, index := 0, total := 16385 }]
    (by decide) (by decide) (by decide) (by decide) (by decide)).1 (by decide)

/-! ## The recorded total is handler state -/

/-- C11, the failing input: one handler with the default limit 16384 and two
requests in flight. In both runs the first request receives the same single
`handleBody` call, declaring 16385 bytes. In the first run nothing else happens
and its `handleRequest` sends 413; in the second run a `handleBody` call for the
other request, declaring 2 bytes, comes in between, and the `handleRequest` of
the first request sends 400. -/
theorem handleRequest_depends_on_other_request :
    callsForFirst [(true, { data := [], len := 0, index := 0, total := 16385 })]
      = callsForFirst [(true, { data := [], len := 0, index := 0, total := 16385 }),
          (false, { data := [123, 125], len := 2, index := 0, total := 2 })] ∧
    ((AsyncCallbackJsonWebHandler.new 26 0 "/api".toList (some 1)).handleBodyTwo roomyHeap
        (sampleRequest 2 "/api/a" "application/json") (sampleRequest 2 "/api/b" "application/json")
        [(true, { data := [], len := 0, index := 0, total := 16385 })]).map
        (fun s => s.1.handleRequest bytesLib s.2.1) = some [Effect.send 413] ∧
    ((AsyncCallbackJsonWebHandler.new 26 0 "/api".toList (some 1)).handleBodyTwo roomyHeap
        (sampleRequest 2 "/api/a" "application/json") (sampleRequest 2 "/api/b" "application/json")
        [(true, { data := [], len := 0, index := 0, total := 16385 }),
          (false, { data := [123, 125], len := 2, index := 0, total := 2 })]).map
        (fun s => s.1.handleRequest bytesLib s.2.1) = some [Effect.send 400] := by
  decide

/-! ## setLength and _sourceValid -/

/-- What one `setLength()` call does to `_isValid`: it is true afterwards exactly
when it was true before or the call returned a non-zero length; the call never
clears it. -/
theorem AsyncJsonResponse.setLength_valid {Doc : Type} (lib : JsonLib Doc)
    (r : AsyncJsonResponse Doc) :
    ((r.setLength lib).1._sourceValid = true ↔
      (r._sourceValid = true ∨ (r.setLength lib).2 ≠ 0)) ∧
    (r.setLength lib).1._contentLength = (r.setLength lib).2 := by
  unfold AsyncJsonResponse.setLength AsyncJsonResponse._sourceValid
  by_cases hz : lib.measureLength r._root = 0
  · simp [hz]
  · simp [hz]

/-- C12, the failing input: a new response (document `{}`), `setLength()`
returning 2, the document replaced through `getRoot()` by one that serializes to
nothing, `setLength()` again, now returning 0: `_contentLength` is 0 and
`_sourceValid()` is still true. -/
theorem setLength_zero_stays_valid :
    ((AsyncJsonResponse.new bytesLib false).setLength bytesLib).2 = 2 ∧
    ((((AsyncJsonResponse.new bytesLib false).run bytesLib
        [ResponseOp.setLength, ResponseOp.setRoot []]).setLength bytesLib).2 = 0) ∧
    ((AsyncJsonResponse.new bytesLib false).run bytesLib
        [ResponseOp.setLength, ResponseOp.setRoot [], ResponseOp.setLength])._contentLength = 0 ∧
    ((AsyncJsonResponse.new bytesLib false).run bytesLib
        [ResponseOp.setLength, ResponseOp.setRoot [], ResponseOp.setLength])._sourceValid
      = true := by
  decide

/-! ## handleRequest answers once -/

/-- C13. One `handleRequest` call of either handler has exactly one effect:
either the configured request callback is invoked (once, and nothing is sent), or
one status is sent and no callback is invoked; the status is 500 for
`AsyncCallbackWebHandler` and 400, 413 or 500 for `AsyncCallbackJsonWebHandler`. -/
theorem handleRequest_answers_once {Doc : Type} (lib : JsonLib Doc)
    (hg : AsyncCallbackWebHandler) (hj : AsyncCallbackJsonWebHandler)
    (request : AsyncWebServerRequest) :
    ((∃ fn, hg._onRequest = some fn ∧
        hg.handleRequest request = [Effect.callback fn request ()]) ∨
      (hg._onRequest = none ∧ hg.handleRequest request = [Effect.send 500])) ∧
    ((∃ fn d, hj._onRequest = some fn ∧
        hj.handleRequest lib request = [Effect.callback fn request d]) ∨
      (∃ code, (code = 400 ∨ code = 413 ∨ code = 500) ∧
        hj.handleRequest lib request = [Effect.send code])) := by
  constructor
  · cases hc : hg._onRequest with
    | none => right; simp [AsyncCallbackWebHandler.handleRequest, hc]
    | some fn => left; exact ⟨fn, rfl, by simp [AsyncCallbackWebHandler.handleRequest, hc]⟩
  · cases hc : hj._onRequest with
    | none =>
      right
      exact ⟨500, by simp, by simp [AsyncCallbackJsonWebHandler.handleRequest, hc]⟩
    | some fn =>
      have hcode : ∀ c : Nat, c = (if hj._contentLength > hj._maxContentLength then 413 else 400) →
          (c = 400 ∨ c = 413 ∨ c = 500) := by
        intro c hc'
        by_cases hgt : hj._contentLength > hj._maxContentLength
        · rw [if_pos hgt] at hc'; simp [hc']
        · rw [if_neg hgt] at hc'; simp [hc']
      cases hb : request._tempObject with
      | none =>
        right
        exact ⟨_, hcode _ rfl, by simp [AsyncCallbackJsonWebHandler.handleRequest, hc, hb]⟩
      | some block =>
        cases hp : lib.parse block with
        | none =>
          right
          exact ⟨_, hcode _ rfl, by simp [AsyncCallbackJsonWebHandler.handleRequest, hc, hb, hp]⟩
        | some d =>
          left
          exact ⟨fn, d, rfl, by simp [AsyncCallbackJsonWebHandler.handleRequest, hc, hb, hp]⟩

/-! ## canHandle: the two handlers compared, and what a call changes -/

/-- The three outcomes of `AsyncCallbackWebHandler::canHandle` spelled out. -/
theorem AsyncCallbackWebHandler.canHandle_eq (h : AsyncCallbackWebHandler)
    (request : AsyncWebServerRequest) :
    h.canHandle request =
      if h._onRequest.isSome = true ∧ h._method &&& request.method ≠ 0 ∧
          uriMismatch h._uri request.url = false
      then (true, request.addInterestingHeader "ANY".toList) else (false, request) := by
  unfold AsyncCallbackWebHandler.canHandle
  cases hc : h._onRequest with
  | none => simp
  | some fn =>
    by_cases hm : h._method &&& request.method = 0
    · simp [hm]
    · cases hu : uriMismatch h._uri request.url <;> simp [hm]

/-- The outcomes of `AsyncCallbackJsonWebHandler::canHandle` spelled out. -/
theorem AsyncCallbackJsonWebHandler.canHandle_json_eq (h : AsyncCallbackJsonWebHandler)
    (request : AsyncWebServerRequest) :
    h.canHandle request =
      if h._onRequest.isSome = true ∧ h._method &&& request.method ≠ 0 ∧
          uriMismatch h._uri request.url = false ∧
          equalsIgnoreCase request.contentType JSON_MIMETYPE = true
      then (true, request.addInterestingHeader "ANY".toList) else (false, request) := by
  unfold AsyncCallbackJsonWebHandler.canHandle
  cases hc : h._onRequest with
  | none => simp
  | some fn =>
    by_cases hm : h._method &&& request.method = 0
    · simp [hm]
    · cases hu : uriMismatch h._uri request.url
      · cases he : equalsIgnoreCase request.contentType JSON_MIMETYPE <;> simp [hm]
      · simp [hm]

/-- `AsyncCallbackWebHandler::canHandle` accepts only with a callback, a matching
method and no uri mismatch. -/
theorem AsyncCallbackWebHandler.canHandle_accepts (h : AsyncCallbackWebHandler)
    (request : AsyncWebServerRequest) :
    (h.canHandle request).1 = true ↔
      (h._onRequest.isSome = true ∧ h._method &&& request.method ≠ 0 ∧
        uriMismatch h._uri request.url = false) := by
  rw [AsyncCallbackWebHandler.canHandle_eq]
  split
  · next hc => simp [hc]
  · next hc => simp; intro a b; by_contra hx; exact hc ⟨a, b, by simpa using hx⟩

/-- C14. For every uri, method mask and request: when the JSON handler built
with that uri and mask and a callback accepts the request, so does the generic
callback handler configured with the same uri and mask and a callback; and for
every non-zero mask (so for some configuration) there is a request that the
generic handler accepts and the JSON handler rejects. -/
theorem jsonHandler_stricter (uri : AString) (mask fnJson fnGeneric HTTP_ANY methods : Nat)
    (indeterminate : Int) (request : AsyncWebServerRequest) :
    ((((AsyncCallbackJsonWebHandler.new methods indeterminate uri (some fnJson)).setMethod
          mask).canHandle request).1 = true →
      (((((AsyncCallbackWebHandler.new HTTP_ANY).setUri uri).setMethod mask).onRequest
          (some fnGeneric)).canHandle request).1 = true) ∧
    (mask ≠ 0 → ∃ r : AsyncWebServerRequest,
      (((((AsyncCallbackWebHandler.new HTTP_ANY).setUri uri).setMethod mask).onRequest
          (some fnGeneric)).canHandle r).1 = true ∧
      (((AsyncCallbackJsonWebHandler.new methods indeterminate uri (some fnJson)).setMethod
          mask).canHandle r).1 = false) := by
  constructor
  · rw [AsyncCallbackJsonWebHandler.canHandle_json_eq, AsyncCallbackWebHandler.canHandle_eq]
    simp only [AsyncCallbackJsonWebHandler.new, AsyncCallbackJsonWebHandler.setMethod,
      AsyncCallbackWebHandler.new, AsyncCallbackWebHandler.setUri,
      AsyncCallbackWebHandler.setMethod, AsyncCallbackWebHandler.onRequest, Option.isSome_some,
      true_and]
    intro hj
    by_cases hc : mask &&& request.method ≠ 0 ∧ uriMismatch uri request.url = false ∧
        equalsIgnoreCase request.contentType JSON_MIMETYPE = true
    · rw [if_pos ⟨hc.1, hc.2.1⟩]
    · rw [if_neg hc] at hj
      exact absurd hj (by simp)
  · intro hmask
    refine ⟨{ method := mask, url := uri, contentType := [], interestingHeaders := [],
              _tempObject := none }, ?_, ?_⟩
    · rw [AsyncCallbackWebHandler.canHandle_eq]
      have hu : uriMismatch uri uri = false := (uriMismatch_false uri uri).mpr (Or.inr (Or.inl rfl))
      simp [AsyncCallbackWebHandler.new, AsyncCallbackWebHandler.setUri,
        AsyncCallbackWebHandler.setMethod, AsyncCallbackWebHandler.onRequest, hmask, hu]
    · rw [AsyncCallbackJsonWebHandler.canHandle_json_eq]
      have he : equalsIgnoreCase [] JSON_MIMETYPE = false := by decide
      simp [he]

/-- C17. For both `canHandle` methods and every handler and request: when the
call returns true the request afterwards is the request with
`addInterestingHeader("ANY")` applied once, when it returns false the request is
unchanged; so the header is registered if and only if the request is accepted.
The handler object is the same after the call. -/
theorem canHandle_registers_on_acceptance (hg : AsyncCallbackWebHandler)
    (hj : AsyncCallbackJsonWebHandler) (request : AsyncWebServerRequest) :
    (((hg.canHandle request).1 = true →
        (hg.canHandle request).2 = request.addInterestingHeader "ANY".toList) ∧
      ((hg.canHandle request).1 = false → (hg.canHandle request).2 = request) ∧
      ((hg.canHandle request).2.interestingHeaders
          = request.interestingHeaders ++ ["ANY".toList] ↔ (hg.canHandle request).1 = true) ∧
      (hg.canHandleStep request).1 = hg) ∧
    (((hj.canHandle request).1 = true →
        (hj.canHandle request).2 = request.addInterestingHeader "ANY".toList) ∧
      ((hj.canHandle request).1 = false → (hj.canHandle request).2 = request) ∧
      ((hj.canHandle request).2.interestingHeaders
          = request.interestingHeaders ++ ["ANY".toList] ↔ (hj.canHandle request).1 = true) ∧
      (hj.canHandleStep request).1 = hj) := by
  constructor
  · rw [AsyncCallbackWebHandler.canHandle_eq]
    split <;> simp [AsyncWebServerRequest.addInterestingHeader,
      AsyncCallbackWebHandler.canHandleStep]
  · rw [AsyncCallbackJsonWebHandler.canHandle_json_eq]
    split <;> simp [AsyncWebServerRequest.addInterestingHeader,
      AsyncCallbackJsonWebHandler.canHandleStep]

/-! ## Callbacks, acceptance and the 500 answer -/

/-- A `handleBody` call changes neither the callback nor the limit of the
handler. -/
theorem AsyncCallbackJsonWebHandler.handleBody_config (heap : Heap)
    (h h2 : AsyncCallbackJsonWebHandler) (request r2 : AsyncWebServerRequest) (data : List Nat)
    (len index total : Nat)
    (e : h.handleBody heap request data len index total = some (h2, r2)) :
    h2._onRequest = h._onRequest ∧ h2._maxContentLength = h._maxContentLength := by
  unfold handleBody at e
  by_cases hcb : h._onRequest.isSome = true
  · simp only [hcb, if_true] at e
    split at e
    · simp only [Option.map_eq_some', Prod.mk.injEq] at e
      obtain ⟨b, _, e1, _⟩ := e
      rw [← e1]
      exact ⟨rfl, rfl⟩
    · simp only [Option.some.injEq, Prod.mk.injEq] at e
      rw [← e.1]
      exact ⟨rfl, rfl⟩
  · simp only [hcb] at e
    simp only [Bool.false_eq_true, if_false, Option.some.injEq, Prod.mk.injEq] at e
    rw [← e.1]
    exact ⟨rfl, rfl⟩

/-- Any number of `handleBody` calls change neither the callback nor the limit
of the handler. -/
theorem AsyncCallbackJsonWebHandler.handleBodyAll_config (heap : Heap) (cs : List BodyCall) :
    ∀ (h h2 : AsyncCallbackJsonWebHandler) (request r2 : AsyncWebServerRequest),
      h.handleBodyAll heap request cs = some (h2, r2) →
      h2._onRequest = h._onRequest ∧ h2._maxContentLength = h._maxContentLength := by
  induction cs with
  | nil =>
    intro h h2 request r2 e
    simp only [handleBodyAll, Option.some.injEq, Prod.mk.injEq] at e
    rw [← e.1]
    exact ⟨rfl, rfl⟩
  | cons c rest ih =>
    intro h h2 request r2 e
    simp only [handleBodyAll] at e
    cases hstep : h.handleBody heap request c.data c.len c.index c.total with
    | none => rw [hstep] at e; simp at e
    | some s =>
      obtain ⟨h1, r1⟩ := s
      rw [hstep] at e
      have a := handleBody_config heap h h1 request r1 _ _ _ _ hstep
      have b := ih h1 h2 r1 r2 e
      exact ⟨b.1.trans a.1, b.2.trans a.2⟩

/-- A JSON handler with a callback never sends 500. -/
theorem AsyncCallbackJsonWebHandler.handleRequest_no_500 {Doc : Type} (lib : JsonLib Doc)
    (h : AsyncCallbackJsonWebHandler) (request : AsyncWebServerRequest)
    (hcb : h._onRequest.isSome = true) :
    Effect.send 500 ∉ h.handleRequest lib request := by
  obtain ⟨fn, hfn⟩ := Option.isSome_iff_exists.mp hcb
  have hcode : (if h._contentLength > h._maxContentLength then 413 else 400 : Nat) ≠ 500 := by
    split <;> decide
  unfold handleRequest
  simp only [hfn]
  cases hb : request._tempObject with
  | none => simp; exact fun e => hcode e.symm
  | some block =>
    cases hp : lib.parse block with
    | none => simp [hp]; exact fun e => hcode e.symm
    | some d => simp [hp]

/-- C19. For both handlers and every request: if `canHandle` returns true then
`isRequestHandlerTrivial()` returns false and `handleRequest` on that handler
(for the JSON handler also after any `handleBody` calls, which are no setters)
does not send 500; `isRequestHandlerTrivial()` is true exactly when no request
callback is configured, and then `canHandle` rejects every request. -/
theorem acceptance_implies_callback {Doc : Type} (lib : JsonLib Doc)
    (hg : AsyncCallbackWebHandler) (hj : AsyncCallbackJsonWebHandler)
    (request : AsyncWebServerRequest) :
    (((hg.canHandle request).1 = true →
        hg.isRequestHandlerTrivial = false ∧ ∀ r, Effect.send 500 ∉ hg.handleRequest r) ∧
      (hg.isRequestHandlerTrivial = true ↔ hg._onRequest = none) ∧
      (hg.isRequestHandlerTrivial = true → ∀ r, (hg.canHandle r).1 = false)) ∧
    (((hj.canHandle request).1 = true →
        hj.isRequestHandlerTrivial = false ∧
        (∀ r, Effect.send 500 ∉ hj.handleRequest lib r) ∧
        (∀ heap r cs h2 r2, hj.handleBodyAll heap r cs = some (h2, r2) →
          ∀ r3, Effect.send 500 ∉ h2.handleRequest lib r3)) ∧
      (hj.isRequestHandlerTrivial = true ↔ hj._onRequest = none) ∧
      (hj.isRequestHandlerTrivial = true → ∀ r, (hj.canHandle r).1 = false)) := by
  refine ⟨⟨?_, ?_, ?_⟩, ⟨?_, ?_, ?_⟩⟩
  · intro hacc
    have hcb : hg._onRequest.isSome = true := ((AsyncCallbackWebHandler.canHandle_accepts hg request).mp hacc).1
    obtain ⟨fn, hfn⟩ := Option.isSome_iff_exists.mp hcb
    refine ⟨by simp [AsyncCallbackWebHandler.isRequestHandlerTrivial, hcb], ?_⟩
    intro r
    simp [AsyncCallbackWebHandler.handleRequest, hfn]
  · cases hc : hg._onRequest <;> simp [AsyncCallbackWebHandler.isRequestHandlerTrivial, hc]
  · intro ht r
    have hn : hg._onRequest = none := by
      cases hc : hg._onRequest with
      | none => rfl
      | some fn => simp [AsyncCallbackWebHandler.isRequestHandlerTrivial, hc] at ht
    simp [AsyncCallbackWebHandler.canHandle, hn]
  · intro hacc
    have hcb : hj._onRequest.isSome = true := by
      rw [AsyncCallbackJsonWebHandler.canHandle_json_eq] at hacc
      by_cases hc : hj._onRequest.isSome = true ∧ hj._method &&& request.method ≠ 0 ∧
          uriMismatch hj._uri request.url = false ∧
          equalsIgnoreCase request.contentType JSON_MIMETYPE = true
      · exact hc.1
      · rw [if_neg hc] at hacc
        exact absurd hacc (by simp)
    refine ⟨by simp [AsyncCallbackJsonWebHandler.isRequestHandlerTrivial, hcb],
      fun r => AsyncCallbackJsonWebHandler.handleRequest_no_500 lib hj r hcb, ?_⟩
    intro heap r cs h2 r2 e r3
    have := (AsyncCallbackJsonWebHandler.handleBodyAll_config heap cs hj h2 r r2 e).1
    exact AsyncCallbackJsonWebHandler.handleRequest_no_500 lib h2 r3 (by rw [this]; exact hcb)
  · cases hc : hj._onRequest <;> simp [AsyncCallbackJsonWebHandler.isRequestHandlerTrivial, hc]
  · intro ht r
    have hn : hj._onRequest = none := by
      cases hc : hj._onRequest with
      | none => rfl
      | some fn => simp [AsyncCallbackJsonWebHandler.isRequestHandlerTrivial, hc] at ht
    simp [AsyncCallbackJsonWebHandler.canHandle, hn]

/-! ## A body of exactly the maximum size -/

/-- C18. For a configured callback and a limit `M` with `0 < M`, a request
without buffer that receives one or more `handleBody` calls, all declaring
`total = M`: no buffer is allocated (the request is left as it is, whatever the
bytes), and the `handleRequest` that follows sends 400 and nothing else. -/
theorem body_of_max_size {Doc : Type} (lib : JsonLib Doc) (heap : Heap)
    (h : AsyncCallbackJsonWebHandler) (request : AsyncWebServerRequest) (cs : List BodyCall)
    (hcb : h._onRequest.isSome = true) (hb : request._tempObject = none) (hne : cs ≠ [])
    (hM : 0 < h._maxContentLength) (hint : h._maxContentLength < INT_HALF)
    (hall : ∀ c ∈ cs, (c.total : Int) = h._maxContentLength) :
    ∃ h2, h.handleBodyAll heap request cs = some (h2, request) ∧
      h2.handleRequest lib request = [Effect.send 400] := by
  obtain ⟨fn, hfn⟩ := Option.isSome_iff_exists.mp hcb
  have hT : ∀ c ∈ cs, c.total = h._maxContentLength.toNat := by
    intro c hc
    have := hall c hc
    omega
  have hw : h.wantsBuffer request h._maxContentLength.toNat = false := by
    cases hx : h.wantsBuffer request h._maxContentLength.toNat
    · rfl
    · have := ((AsyncCallbackJsonWebHandler.wantsBuffer_iff h request _ (by omega) hint).mp hx).2.2
      omega
  refine ⟨_, AsyncCallbackJsonWebHandler.handleBodyAll_no_buffer heap request _ cs h hcb hb hw hT
    hne, ?_⟩
  have hsz : sizeToInt h._maxContentLength.toNat = h._maxContentLength := by
    rw [sizeToInt_small (by unfold INT_HALF at hint; omega)]
    omega
  simp [AsyncCallbackJsonWebHandler.handleRequest, hfn, hb, hsz]

/-- Witness of C18: the default limit 16384 and a body declared with 16384
bytes, delivered in two calls. -/
theorem body_of_max_size_witness :
    ∃ h2, (AsyncCallbackJsonWebHandler.new 26 0 "/api".toList (some 1)).handleBodyAll roomyHeap
        (sampleRequest 2 "/api" "application/json")
        [{ data := [123, 34], len := 2, index := 0, total := 16384 },
         { data := [34, 125], len := 2, index := 2, total := 16384 }]
        = some (h2, sampleRequest 2 "/api" "application/json") ∧
      h2.handleRequest bytesLib (sampleRequest 2 "/api" "application/json")
        = [Effect.send 400] :=
  body_of_max_size bytesLib roomyHeap
    (AsyncCallbackJsonWebHandler.new 26 0 "/api".toList (some 1))
    (sampleRequest 2 "/api" "application/json")
    [{ data := [123, 34], len := 2, index := 0, total := 16384 },
     { data := [34, 125], len := 2, index := 2, total := 16384 }]
    (by decide) (by decide) (by decide) (by decide) (by decide) (by decide)

/-! ## Positional copies stay inside the buffer -/

/-- A `handleBody` call on a request without buffer that gets none (the test
fails, `malloc` returns `NULL`, or there is no callback) copies nothing: the
request is left as it is. -/
theorem AsyncCallbackJsonWebHandler.handleBody_no_copy (heap : Heap)
    (h : AsyncCallbackJsonWebHandler) (request : AsyncWebServerRequest) (data : List Nat)
    (len index total : Nat) (hb : request._tempObject = none)
    (hno : h.wantsBuffer request total = false ∨ heap.available total = false ∨
      h._onRequest = none) :
    ∃ h2, h.handleBody heap request data len index total = some (h2, request) := by
  have heta : { request with _tempObject := none } = request := by
    cases request
    simp only at hb
    subst hb
    rfl
  by_cases hcb : h._onRequest.isSome = true
  · cases hw : h.wantsBuffer request total with
    | false => exact ⟨_, handleBody_skip heap h request data len index total hcb hb hw⟩
    | true =>
      have hroom : heap.available total = false := by
        rcases hno with hx | hx | hx
        · rw [hw] at hx; exact absurd hx (by simp)
        · exact hx
        · rw [hx] at hcb; exact absurd hcb (by simp)
      have hw1 : wantsBuffer { h with _contentLength := sizeToInt total } request total = true :=
        hw
      refine ⟨{ h with _contentLength := sizeToInt total }, ?_⟩
      unfold handleBody
      simp only [hcb, if_true, hw1, malloc, hroom, Bool.false_eq_true, if_false, heta, hb]
  · refine ⟨h, ?_⟩
    unfold handleBody
    simp [hcb]

/-- One `handleBody` call with `index + len ≤ total`, on a request that has no
buffer or a buffer of `total` bytes, for `0 < total < max`: the call is well
defined; afterwards the request is unchanged without buffer, or has a buffer of
`total` bytes that contains the copied range. -/
theorem AsyncCallbackJsonWebHandler.handleBody_in_bounds (heap : Heap)
    (h : AsyncCallbackJsonWebHandler) (request : AsyncWebServerRequest) (c : BodyCall)
    (total : Nat) (h0 : 0 < total) (hmax : (total : Int) < h._maxContentLength)
    (hint : h._maxContentLength < INT_HALF)
    (hinv : request._tempObject = none ∨ ∃ b, request._tempObject = some b ∧ b.length = total)
    (hc : c.total = total ∧ c.index + c.len ≤ total ∧ c.len ≤ c.data.length) :
    ∃ h2 r2, h.handleBody heap request c.data c.len c.index c.total = some (h2, r2) ∧
      ((r2._tempObject = none ∧ r2 = request) ∨
        ∃ b, r2._tempObject = some b ∧ b.length = total ∧ c.index + c.len ≤ b.length) := by
  obtain ⟨hct, hin, hd⟩ := hc
  rw [hct]
  by_cases hcb : h._onRequest.isSome = true
  · rcases hinv with hb | ⟨b, hb, hbl⟩
    · cases hroom : heap.available total with
      | false =>
        obtain ⟨h2, e⟩ := handleBody_no_copy heap h request c.data c.len c.index total hb
          (Or.inr (Or.inl hroom))
        exact ⟨h2, request, e, Or.inl ⟨hb, rfl⟩⟩
      | true =>
        have hw : h.wantsBuffer request total = true :=
          (wantsBuffer_iff h request total (by omega) hint).mpr ⟨hb, h0, hmax⟩
        rw [handleBody_alloc heap h request c.data c.len c.index total hcb hw hroom,
          handleBody_buffer heap h _ ((List.range total).map heap.junk) c.data c.len c.index total
            hcb rfl (by simpa using hin) hd]
        refine ⟨_, _, rfl, Or.inr ⟨_, rfl, ?_, ?_⟩⟩ <;> (simp; omega)
    · rw [handleBody_buffer heap h request b c.data c.len c.index total hcb hb (by omega) hd]
      refine ⟨_, _, rfl, Or.inr ⟨_, rfl, ?_, ?_⟩⟩ <;> (simp; omega)
  · have e : h.handleBody heap request c.data c.len c.index total = some (h, request) := by
      unfold handleBody
      simp [hcb]
    rw [e]
    refine ⟨_, _, rfl, ?_⟩
    rcases hinv with hb | ⟨b, hb, hbl⟩
    · exact Or.inl ⟨hb, rfl⟩
    · exact Or.inr ⟨b, hb, hbl, by omega⟩

/-- Any number of in-range `handleBody` calls with the same `total`: the run is
well defined and ends without buffer and the request unchanged, or with a buffer
of `total` bytes. -/
theorem AsyncCallbackJsonWebHandler.handleBodyAll_in_bounds (heap : Heap) (total : Nat)
    (M : Int) (h0 : 0 < total) (hmax : (total : Int) < M) (hint : M < INT_HALF)
    (cs : List BodyCall) :
    ∀ (h : AsyncCallbackJsonWebHandler) (request : AsyncWebServerRequest),
      h._maxContentLength = M →
      (request._tempObject = none ∨ ∃ b, request._tempObject = some b ∧ b.length = total) →
      (∀ c ∈ cs, c.total = total ∧ c.index + c.len ≤ total ∧ c.len ≤ c.data.length) →
      ∃ h1 r1, h.handleBodyAll heap request cs = some (h1, r1) ∧ h1._maxContentLength = M ∧
        ((r1._tempObject = none ∧ r1 = request) ∨
          ∃ b, r1._tempObject = some b ∧ b.length = total) := by
  induction cs with
  | nil =>
    intro h request hM hinv _
    refine ⟨h, request, rfl, hM, ?_⟩
    rcases hinv with hb | hb
    · exact Or.inl ⟨hb, rfl⟩
    · exact Or.inr hb
  | cons c rest ih =>
    intro h request hM hinv hall
    obtain ⟨h2, r2, e, hr2⟩ := handleBody_in_bounds heap h request c total h0 (by rw [hM]; exact hmax)
      (by rw [hM]; exact hint) hinv (hall c (List.mem_cons_self _ _))
    have hM2 : h2._maxContentLength = M :=
      (handleBody_config heap h h2 request r2 _ _ _ _ e).2.trans hM
    have hinv2 : r2._tempObject = none ∨ ∃ b, r2._tempObject = some b ∧ b.length = total := by
      rcases hr2 with hx | ⟨b, hb, hbl, _⟩
      · exact Or.inl hx.1
      · exact Or.inr ⟨b, hb, hbl⟩
    obtain ⟨h1, r1, e1, hM1, hr1⟩ := ih h2 r2 hM2 hinv2
      (fun x hx => hall x (List.mem_cons_of_mem _ hx))
    refine ⟨h1, r1, ?_, hM1, ?_⟩
    · simp only [handleBodyAll, e]
      exact e1
    · rcases hr1 with ⟨hn, hq⟩ | hbuf
      · rcases hr2 with hx | ⟨b, hb, _, _⟩
        · exact Or.inl ⟨hn, hq.trans hx.2⟩
        · rw [hq, hb] at hn
          exact absurd hn (by simp)
      · exact Or.inr hbuf

/-- C20. For a request that starts without buffer and whose `handleBody` calls
all carry the same `total` with `0 < total < maxAllowedLength` and
`index + len ≤ total` (and point at `len` bytes): before every call the run so
far is well defined and the request has no buffer or a buffer of `total` bytes;
the call itself is well defined, and when it copies, the copied range
`[index, index + len)` lies inside that buffer. And a call on a request without
buffer that gets none copies nothing: the request is left as it is. -/
theorem handleBody_copies_in_bounds (heap : Heap) (h : AsyncCallbackJsonWebHandler)
    (request : AsyncWebServerRequest) (total : Nat) (cs : List BodyCall)
    (hb : request._tempObject = none) (h0 : 0 < total)
    (hmax : (total : Int) < h._maxContentLength) (hint : h._maxContentLength < INT_HALF)
    (hall : ∀ c ∈ cs, c.total = total ∧ c.index + c.len ≤ total ∧ c.len ≤ c.data.length) :
    (∀ n, ∃ h1 r1, h.handleBodyAll heap request (cs.take n) = some (h1, r1) ∧
      ((r1._tempObject = none ∧ r1 = request) ∨
        ∃ b, r1._tempObject = some b ∧ b.length = total) ∧
      ∀ c, cs[n]? = some c →
        ∃ h2 r2, h1.handleBody heap r1 c.data c.len c.index c.total = some (h2, r2) ∧
          ((r2._tempObject = none ∧ r2 = r1) ∨
            ∃ b, r2._tempObject = some b ∧ b.length = total ∧ c.index + c.len ≤ b.length)) ∧
    (∀ data len index T,
      (h.wantsBuffer request T = false ∨ heap.available T = false ∨ h._onRequest = none) →
      ∃ h2, h.handleBody heap request data len index T = some (h2, request)) := by
  constructor
  · intro n
    obtain ⟨h1, r1, e, hM1, hr1⟩ :=
      AsyncCallbackJsonWebHandler.handleBodyAll_in_bounds heap total h._maxContentLength h0 hmax
        hint (cs.take n) h request rfl (Or.inl hb)
        (fun c hc => hall c (List.mem_of_mem_take hc))
    refine ⟨h1, r1, e, hr1, ?_⟩
    intro c hc
    have hmem : c ∈ cs := List.getElem?_mem hc
    have hinv1 : r1._tempObject = none ∨ ∃ b, r1._tempObject = some b ∧ b.length = total := by
      rcases hr1 with hx | hx
      · exact Or.inl hx.1
      · exact Or.inr hx
    exact AsyncCallbackJsonWebHandler.handleBody_in_bounds heap h1 r1 c total h0
      (by rw [hM1]; exact hmax) (by rw [hM1]; exact hint) hinv1 (hall c hmem)
  · intro data len index T hno
    exact AsyncCallbackJsonWebHandler.handleBody_no_copy heap h request data len index T hb hno

/-- Witness of C20: a body of 7 bytes delivered in two in-range calls under the
default limit; after both calls the run is defined. -/
theorem handleBody_copies_in_bounds_witness :
    ∃ h1 r1, (AsyncCallbackJsonWebHandler.new 26 0 "/api".toList (some 1)).handleBodyAll roomyHeap
        (sampleRequest 2 "/api" "application/json")
        (([{ data := [123, 34, 97, 34], len := 4, index := 0, total := 7 },
           { data := [58, 49, 125], len := 3, index := 4, total := 7 }] : List BodyCall).take 2)
        = some (h1, r1) ∧
      ((r1._tempObject = none ∧ r1 = sampleRequest 2 "/api" "application/json") ∨
        ∃ b, r1._tempObject = some b ∧ b.length = 7) :=
  ((handleBody_copies_in_bounds roomyHeap
    (AsyncCallbackJsonWebHandler.new 26 0 "/api".toList (some 1))
    (sampleRequest 2 "/api" "application/json") 7
    [{ data := [123, 34, 97, 34], len := 4, index := 0, total := 7 },
     { data := [58, 49, 125], len := 3, index := 4, total := 7 }]
    (by decide) (by decide) (by decide) (by decide) (by decide)).1 2).elim
    fun h1 e1 => e1.elim fun r1 e => ⟨h1, r1, e.1, e.2.1⟩

/-! ## _fillBuffer can be repeated -/

/-- The memory behind `data` after `_fillBuffer(data, len)`, byte by byte. -/
theorem AsyncJsonResponse.fillBuffer_memory {Doc : Type} (lib : JsonLib Doc)
    (r : AsyncJsonResponse Doc) (data : Nat → Nat) (len : Nat)
    (ho : r._sentLength < SIZE_MOD) (hl : len < SIZE_MOD) (i : Nat) :
    (r._fillBuffer lib data len).1 i =
      if i < min len ((lib.serialize r._root).length - r._sentLength)
      then (lib.serialize r._root).getD (r._sentLength + i) 0 else data i := by
  have hst := ChunkPrint.writeAll_state (lib.serialize r._root)
    (ChunkPrint.new data r._sentLength len)
    (by simpa [ChunkPrint.new] using ho) (by simpa [ChunkPrint.new] using hl)
  obtain ⟨_, _, _, d⟩ := hst
  unfold _fillBuffer fillDest JsonLib.printTo
  simp only
  rw [d i]
  simp only [ChunkPrint.new, Nat.zero_le, true_and, Nat.zero_add, Nat.sub_zero]

/-- C16. `_fillBuffer` hands the response object on with every field as it was;
a second call with the same `_sentLength` and `len` returns the same value,
stores to the same positions, and stores the same bytes there, whatever buffer
it is given; on the buffer the first call filled it changes nothing. -/
theorem fillBuffer_repeatable {Doc : Type} (lib : JsonLib Doc) (r : AsyncJsonResponse Doc)
    (data1 data2 : Nat → Nat) (len : Nat) (ho : r._sentLength < SIZE_MOD)
    (hl : len < SIZE_MOD) :
    (r._fillBufferStep lib data1 len).1 = r ∧
    ((r._fillBufferStep lib data1 len).1._fillBufferStep lib data2 len).2.2
      = (r._fillBufferStep lib data1 len).2.2 ∧
    (ChunkPrint.new data2 (r._fillBufferStep lib data1 len).1._sentLength len).storeTrace
        (lib.serialize (r._fillBufferStep lib data1 len).1._root)
      = (ChunkPrint.new data1 r._sentLength len).storeTrace (lib.serialize r._root) ∧
    (∀ i, i ∈ (ChunkPrint.new data1 r._sentLength len).storeTrace (lib.serialize r._root) →
      ((r._fillBufferStep lib data1 len).1._fillBufferStep lib data2 len).2.1 i
        = (r._fillBufferStep lib data1 len).2.1 i) ∧
    (∀ i, i ∉ (ChunkPrint.new data1 r._sentLength len).storeTrace (lib.serialize r._root) →
      ((r._fillBufferStep lib data1 len).1._fillBufferStep lib data2 len).2.1 i = data2 i) ∧
    ((r._fillBufferStep lib data1 len).1._fillBufferStep lib
        (r._fillBufferStep lib data1 len).2.1 len).2.1
      = (r._fillBufferStep lib data1 len).2.1 := by
  have htr : ∀ data : Nat → Nat,
      (ChunkPrint.new data r._sentLength len).storeTrace (lib.serialize r._root)
        = List.range' 0 (min len ((lib.serialize r._root).length - r._sentLength)) := by
    intro data
    exact ChunkPrint.storeTrace_eq (lib.serialize r._root) (ChunkPrint.new data r._sentLength len)
      (by simpa [ChunkPrint.new] using ho) (by simpa [ChunkPrint.new] using hl)
  have hmem := fun data => AsyncJsonResponse.fillBuffer_memory lib r data len ho hl
  refine ⟨rfl, rfl, ?_, ?_, ?_, ?_⟩ <;> simp only [AsyncJsonResponse._fillBufferStep]
  · rw [htr data1, htr data2]
  · intro i hi
    rw [htr data1, List.mem_range'_1] at hi
    rw [hmem data2 i, hmem data1 i, if_pos (by omega), if_pos (by omega)]
  · intro i hi
    rw [htr data1, List.mem_range'_1] at hi
    rw [hmem data2 i, if_neg (by omega)]
  · funext i
    rw [hmem _ i]
    split
    · next hi => rw [hmem data1 i, if_pos hi]
    · rfl

/-- Witness of C16: a five byte document, the window `[1, 4)`, asked for twice. -/
theorem fillBuffer_repeatable_witness :
    (sampleResponse [10, 11, 12, 13, 14] 1)._sentLength < SIZE_MOD ∧ 3 < SIZE_MOD ∧
    (((sampleResponse [10, 11, 12, 13, 14] 1)._fillBufferStep bytesLib (fun _ => 0) 3).1._fillBufferStep
        bytesLib (fun _ => 7) 3).2.2
      = ((sampleResponse [10, 11, 12, 13, 14] 1)._fillBufferStep bytesLib (fun _ => 0) 3).2.2 :=
  ⟨by decide, by decide,
    (fillBuffer_repeatable bytesLib (sampleResponse [10, 11, 12, 13, 14] 1) (fun _ => 0)
      (fun _ => 7) 3 (by decide) (by decide)).2.1⟩

/-! ## The end-to-end JSON body scenario -/

/-- A body `B` delivered in covering in-range chunks with a declared `total` of
at least `|B|` bytes: the buffer of `total` bytes ends up holding `B` followed by
the bytes the fresh block had from offset `|B|` on. -/
theorem AsyncCallbackJsonWebHandler.handleBodyAll_padded (heap : Heap)
    (h : AsyncCallbackJsonWebHandler) (request : AsyncWebServerRequest) (B : List Nat)
    (total : Nat) (ds : List (Nat × Nat))
    (hcb : h._onRequest.isSome = true) (hreq : request._tempObject = none)
    (hlen : B.length ≤ total) (h0 : 0 < total) (hmax : (total : Int) < h._maxContentLength)
    (hint : h._maxContentLength < INT_HALF) (hroom : heap.available total = true)
    (hin : ∀ c ∈ ds, c.1 + c.2 ≤ B.length)
    (hcover : ∀ p, p < B.length → ∃ c ∈ ds, c.1 ≤ p ∧ p < c.1 + c.2) (hne : ds ≠ []) :
    ∃ h2, h.handleBodyAll heap request (ds.map (chunkCall B total))
        = some (h2, { request with
            _tempObject := some (B ++ ((List.range total).map heap.junk).drop B.length) }) ∧
      h2._onRequest = h._onRequest := by
  have hJ : ((List.range total).map heap.junk).length = total := by simp
  have hB2 : (B ++ ((List.range total).map heap.junk).drop B.length).length = total := by
    simp
    omega
  have hmap : ds.map (chunkCall B total)
      = ds.map (chunkCall (B ++ ((List.range total).map heap.junk).drop B.length) total) := by
    apply List.map_congr_left
    intro c hc
    have hc2 := hin c hc
    simp only [chunkCall]
    rw [List.drop_append_of_le_length (by omega),
      List.take_append_of_le_length (by simp; omega)]
  have hw : h.wantsBuffer request total = true :=
    (wantsBuffer_iff h request total (by omega) hint).mpr ⟨hreq, h0, hmax⟩
  obtain ⟨h2, b2, e, hl2, hag⟩ :=
    handleBodyAll_chunks heap (B ++ ((List.range total).map heap.junk).drop B.length) total ds h
      { request with _tempObject := some ((List.range total).map heap.junk) }
      ((List.range total).map heap.junk) hcb rfl (by rw [hB2, hJ])
      (fun c hc => by rw [hB2]; have := hin c hc; omega)
  have hb2 : b2 = B ++ ((List.range total).map heap.junk).drop B.length := by
    apply List.ext_getElem?
    intro p
    apply hag
    by_cases hp : p < B.length
    · exact Or.inr (hcover p hp)
    · left
      rw [List.getElem?_append_right (by omega), List.getElem?_drop]
      congr 1
      omega
  have hcfg := handleBodyAll_config heap _ h h2 _ _ e
  refine ⟨h2, ?_, hcfg.1⟩
  rw [hb2] at e
  rw [hmap]
  cases ds with
  | nil => exact absurd rfl hne
  | cons c rest =>
    simp only [List.map_cons, handleBodyAll, chunkCall] at e ⊢
    rw [handleBody_alloc heap h request _ _ _ _ hcb hw hroom]
    exact e

/-- C15. A handler for uri "/api", method `HTTP_POST`, limit `M` and a callback;
a request with that method, url "/api" and content type "application/json",
without buffer; a body `B` that the parser reads as the document `d` whatever
bytes follow it, delivered as the two chunks `[0, k)` and `[k, |B|)`, in either
order, with a declared `total`, `|B| ≤ total < M`, on a heap with room:
`canHandle` accepts, the `handleBody` calls are well defined, and
`handleRequest` has exactly one effect, the callback invoked with `d`. -/
theorem json_body_scenario {Doc : Type} (lib : JsonLib Doc) (heap : Heap)
    (methods HTTP_POST fn : Nat) (indeterminate M : Int) (request : AsyncWebServerRequest)
    (B : List Nat) (d : Doc) (k total : Nat) (ds : List (Nat × Nat))
    (hpost : HTTP_POST ≠ 0) (hmeth : request.method = HTTP_POST)
    (hurl : request.url = "/api".toList)
    (hct : request.contentType = "application/json".toList)
    (hreq : request._tempObject = none)
    (hparse : ∀ tail, lib.parse (B ++ tail) = some d)
    (hk : k ≤ B.length)
    (hds : ds = [(0, k), (k, B.length - k)] ∨ ds = [(k, B.length - k), (0, k)])
    (hlen : B.length ≤ total) (h0 : 0 < total) (hmax : (total : Int) < M)
    (hint : M < INT_HALF) (hroom : heap.available total = true) :
    ((((AsyncCallbackJsonWebHandler.new methods indeterminate "/api".toList (some fn)).setMethod
        HTTP_POST).setMaxContentLength M).canHandle request).1 = true ∧
    ∃ h2 r2,
      (((AsyncCallbackJsonWebHandler.new methods indeterminate "/api".toList (some fn)).setMethod
          HTTP_POST).setMaxContentLength M).handleBodyAll heap
        ((((AsyncCallbackJsonWebHandler.new methods indeterminate "/api".toList
          (some fn)).setMethod HTTP_POST).setMaxContentLength M).canHandle request).2
        (ds.map (chunkCall B total)) = some (h2, r2) ∧
      h2.handleRequest lib r2 = [Effect.callback fn r2 d] := by
  have hacc : ((((AsyncCallbackJsonWebHandler.new methods indeterminate "/api".toList
      (some fn)).setMethod HTTP_POST).setMaxContentLength M).canHandle request)
      = (true, request.addInterestingHeader "ANY".toList) := by
    rw [AsyncCallbackJsonWebHandler.canHandle_json_eq]
    have hu : uriMismatch "/api".toList "/api".toList = false := by decide
    have he : equalsIgnoreCase "application/json".toList JSON_MIMETYPE = true := by decide
    simp [AsyncCallbackJsonWebHandler.new, AsyncCallbackJsonWebHandler.setMethod,
      AsyncCallbackJsonWebHandler.setMaxContentLength, hmeth, hurl, hct, hpost]
    exact ⟨hu, he⟩
  rw [hacc]
  refine ⟨rfl, ?_⟩
  have hin : ∀ c ∈ ds, c.1 + c.2 ≤ B.length := by
    intro c hc
    rcases hds with hds | hds <;> rw [hds] at hc <;> simp at hc <;>
      rcases hc with hc | hc <;> rw [hc] <;> simp <;> omega
  have hcover : ∀ p, p < B.length → ∃ c ∈ ds, c.1 ≤ p ∧ p < c.1 + c.2 := by
    intro p hp
    by_cases hpk : p < k
    · exact ⟨(0, k), by rcases hds with hds | hds <;> rw [hds] <;> simp, by simp, by simpa using hpk⟩
    · exact ⟨(k, B.length - k), by rcases hds with hds | hds <;> rw [hds] <;> simp,
        by simp; omega, by simp; omega⟩
  have hne : ds ≠ [] := by
    rcases hds with hds | hds <;> rw [hds] <;> simp
  obtain ⟨h2, e, hcb2⟩ := AsyncCallbackJsonWebHandler.handleBodyAll_padded heap
    (((AsyncCallbackJsonWebHandler.new methods indeterminate "/api".toList (some fn)).setMethod
      HTTP_POST).setMaxContentLength M)
    (request.addInterestingHeader "ANY".toList) B total ds rfl
    (by simpa [AsyncWebServerRequest.addInterestingHeader] using hreq) hlen h0 hmax hint hroom
    hin hcover hne
  refine ⟨h2, _, e, ?_⟩
  have hfn : h2._onRequest = some fn := hcb2
  simp [AsyncCallbackJsonWebHandler.handleRequest, hfn, hparse]

/-- Witness of C15: the scenario of the spec, limit 100, declared total 50, the
body `{"a":1}` delivered as `{"a"` and `:1}`. -/
theorem json_body_scenario_witness :
    (scenarioHandler.canHandle (sampleRequest 2 "/api" "application/json")).1 = true ∧
    ∃ h2 r2,
      scenarioHandler.handleBodyAll roomyHeap
        (scenarioHandler.canHandle (sampleRequest 2 "/api" "application/json")).2
        ([(0, 4), (4, 7 - 4)].map (chunkCall [123, 34, 97, 34, 58, 49, 125] 50)) = some (h2, r2) ∧
      h2.handleRequest objectLib r2 = [Effect.callback 1 r2 [123, 34, 97, 34, 58, 49, 125]] :=
  json_body_scenario objectLib roomyHeap 26 2 1 0 100 (sampleRequest 2 "/api" "application/json")
    [123, 34, 97, 34, 58, 49, 125] [123, 34, 97, 34, 58, 49, 125] 4 50 [(0, 4), (4, 7 - 4)]
    (by decide) (by decide) (by decide) (by decide) (by decide) (fun _ => rfl) (by decide)
    (Or.inl rfl) (by decide) (by decide) (by decide) (by decide) (by decide)

end WebHandlerImpl
